import Mathlib

/-!
# Verification of the Sudoku CSP engine (`sudoku-solver.py`)

This file gives a shallow embedding, in Lean 4, of the CSP engine and the
search drivers of the repository's single source file `sudoku-solver.py`,
and proves (or refutes) the frozen specification claims about them.

Modelling conventions:
* A board is a `List (List Int)`; the unassigned sentinel is `-1`, exactly as
  in the source.  `getCell` reads a cell with an out-of-range default of `0`
  (the source would raise there; all theorems that depend on cell reads carry
  the dimension hypotheses under which the default is never consulted).
* Python sets of small integers / pairs are modelled as `Finset`s; where the
  source iterates over a set, the embedding iterates in a fixed canonical
  order (the result of every such iteration in the source is order
  independent, or the source's own `sort` makes the output deterministic).
* The engine object `SudokuCSP` is a structure; methods that mutate
  `self.checks` are modelled as state transformers returning the updated
  engine, the rest are pure functions of the engine.
-/

/-- A Sudoku board: a list of rows of integer cells; `-1` is "unassigned". -/
abbrev Board := List (List Int)

/-- Read cell `(i, j)` of a board.  Out-of-range reads default to `0`
(which is neither the sentinel `-1` nor a domain value `1..n`). -/
def getCell (b : Board) (i j : Nat) : Int :=
  (b.getD i []).getD j 0

/-- Write value `v` into cell `(i, j)` of a board (`board[i][j] = v`).
Out-of-range writes leave the board unchanged. -/
def setCell (b : Board) (i j : Nat) (v : Int) : Board :=
  b.set i ((b.getD i []).set j v)

/-- Row-major list of all cell coordinates of an `n`-by-`n` board, the
iteration order of every `for i in range(n): for j in range(n)` loop nest
in the source. -/
def rowMajorCells (n : Nat) : List (Nat × Nat) :=
  (List.range n).flatMap fun i => (List.range n).map fun j => (i, j)

/-- The engine state of `class SudokuCSP`: puzzle parameters `n, m, k`, the
full value domain, the optional arc-consistency reduced domains, the
consistency-check counter and the optional engine-owned copy of the initial
board (`__init__`). -/
structure SudokuCSP where
  n : Nat
  m : Nat
  k : Nat
  domain : Finset Int
  reducedDomains : Option (List (List (Finset Int)))
  checks : Nat
  initialBoard : Option Board
deriving DecidableEq

/-- `SudokuCSP.__init__(n, m, k, initialBoard=None)`: `domain` is
`set(range(1, n+1))`; the initial board is copied when supplied; a `None`
*or empty* initial board (both falsy in Python) leaves `initialBoard = None`. -/
def SudokuCSP.init (n m k : Nat) (initialBoard : Option Board) : SudokuCSP :=
  { n := n
    m := m
    k := k
    domain := Finset.Icc 1 (n : Int)
    reducedDomains := none
    checks := 0
    initialBoard :=
      match initialBoard with
      | some b => if b.isEmpty then none else some b
      | none => none }

/-- The neighbour set of `(i, j)` for puzzle parameters `(n, m, k)`: union
of row `i`, column `j` and the `m`-by-`k` sub-grid containing `(i, j)`
(origin `(i / m * m, j / k * k)` by floor division), with `(i, j)` itself
removed at the end. -/
def neighbourCells (n m k : Nat) (i j : Nat) : Finset (Nat × Nat) :=
  ((({i} : Finset Nat) ×ˢ Finset.range n) ∪
    (Finset.range n ×ˢ ({j} : Finset Nat)) ∪
    (Finset.Ico (i / m * m) (i / m * m + m) ×ˢ
      Finset.Ico (j / k * k) (j / k * k + k))).erase (i, j)

/-- `getNeighbours(i, j)`: the neighbour set for the engine's parameters. -/
def SudokuCSP.getNeighbours (csp : SudokuCSP) (i j : Nat) : Finset (Nat × Nat) :=
  neighbourCells csp.n csp.m csp.k i j

/-- The neighbours of `(i, j)` listed in a canonical (row-major) order; the
source iterates over the neighbour *set* in Python's set order, which is
deterministic but unspecified — every use is order independent or explicitly
re-sorted, so a canonical order is a faithful model. -/
def neighbourListP (n m k : Nat) (i j : Nat) : List (Nat × Nat) :=
  (rowMajorCells n).filter fun c => c ∈ neighbourCells n m k i j

/-- `getUnassignedNeighbours(board, i, j)`: the neighbours whose current
board value is the sentinel `-1`. -/
def SudokuCSP.getUnassignedNeighbours (csp : SudokuCSP) (b : Board) (i j : Nat) :
    Finset (Nat × Nat) :=
  (csp.getNeighbours i j).filter fun c => getCell b c.1 c.2 = -1

/-- The set of values held by the neighbours of `(i, j)` (the `appeared`
set built by `check` and `getLegalValues`). -/
def SudokuCSP.neighbourValues (csp : SudokuCSP) (b : Board) (i j : Nat) : Finset Int :=
  (csp.getNeighbours i j).image fun c => getCell b c.1 c.2

/-- The boolean result of `check(board, i, j)`: the value at `(i, j)` does
not appear among the values of its neighbours.  (The check-counter side
effect of the method is modelled separately by `SudokuCSP.check`.) -/
def checkVal (csp : SudokuCSP) (b : Board) (i j : Nat) : Bool :=
  decide (getCell b i j ∉ csp.neighbourValues b i j)

/-- The list `board[i]` as iterated by the row check of `checkAll`. -/
def rowList (b : Board) (i : Nat) : List Int := b.getD i []

/-- The values `board[j][i]` for `j in range(n)`, as iterated by the column
check of `checkAll` (the loop variable `i` is the column index there). -/
def colList (n : Nat) (b : Board) (i : Nat) : List Int :=
  (List.range n).map fun j => getCell b j i

/-- The starting offsets `range(0, n, step)` of Python, for `step ≥ 1`. -/
def stepStarts (n step : Nat) : List Nat :=
  List.range' 0 ((n + step - 1) / step) step

/-- The values of the sub-grid with origin `(bi, bj)`, in the row-major
order of the `si, sj` loop nest of `checkAll`. -/
def subgridList (csp : SudokuCSP) (b : Board) (bi bj : Nat) : List Int :=
  (List.range' bi csp.m).flatMap fun si => (List.range' bj csp.k).map fun sj => getCell b si sj

/-- The boolean result of `checkAll(board)`: no row, column or sub-grid
holds a duplicate value.  The source's early `return False` on the first
duplicate found is value-equal to this conjunction.  (The unconditional
check-counter increment of the method is modelled by `SudokuCSP.checkAll`.) -/
def checkAllVal (csp : SudokuCSP) (b : Board) : Bool :=
  decide ((∀ i ∈ List.range csp.n, (rowList b i).Nodup ∧ (colList csp.n b i).Nodup) ∧
    ∀ bi ∈ stepStarts csp.n csp.m, ∀ bj ∈ stepStarts csp.n csp.k,
      (subgridList csp b bi bj).Nodup)

/-- `isSatisfiable()`: `False` if no initial board is present; otherwise
increment the counter once and require `check` (with per-cell counting
disabled) to pass at every pre-filled cell of the initial board.  The
source's early `return False` is value-equal to the quantified form. -/
def SudokuCSP.isSatisfiable (csp : SudokuCSP) : Bool × SudokuCSP :=
  match csp.initialBoard with
  | none => (false, csp)
  | some ib =>
      (decide (∀ i ∈ List.range csp.n, ∀ j ∈ List.range csp.n,
          getCell ib i j ≠ -1 → checkVal csp ib i j = true),
        { csp with checks := csp.checks + 1 })

/-- The grid of reduced domains, read with an out-of-range default of `∅`. -/
def getDomG (rd : List (List (Finset Int))) (i j : Nat) : Finset Int :=
  (rd.getD i []).getD j ∅

/-- `getLegalValues(board, i, j)`: the cell's domain (its reduced domain if
one was computed, else the full domain) minus the values currently held by
its neighbours. -/
def SudokuCSP.getLegalValues (csp : SudokuCSP) (b : Board) (i j : Nat) : Finset Int :=
  (match csp.reducedDomains with
    | some rd => getDomG rd i j
    | none => csp.domain) \ csp.neighbourValues b i j

/-- `getOpenCellMRV(board)`: row-major scan of all cells keeping the open
cell with the fewest legal values (strict `<`, so ties keep the first such
cell encountered); `(-1, -1)` when no cell is open. -/
def SudokuCSP.getOpenCellMRV (csp : SudokuCSP) (b : Board) : Int × Int :=
  ((rowMajorCells csp.n).foldl
    (fun acc c =>
      if getCell b c.1 c.2 = -1 then
        let size := (csp.getLegalValues b c.1 c.2).card
        if size < acc.1 then (size, ((c.1 : Int), (c.2 : Int))) else acc
      else acc)
    (csp.n + 1, (-1, -1))).2

/-- `getFirstOpenCell(board)`: the first open cell in row-major order, or
`(-1, -1)` if the board has none. -/
def SudokuCSP.getFirstOpenCell (csp : SudokuCSP) (b : Board) : Int × Int :=
  match (rowMajorCells csp.n).find? (fun c => getCell b c.1 c.2 = -1) with
  | some c => ((c.1 : Int), (c.2 : Int))
  | none => (-1, -1)

/-- The inner sum computed by `getLCVList` for one candidate value `v`: over
all unassigned neighbours of the cell, the size of the neighbour's
legal-value set with `v` discarded. -/
def lcvSum (csp : SudokuCSP) (b : Board) (i j : Nat) (v : Int) : Nat :=
  ∑ c ∈ csp.getUnassignedNeighbours b i j, ((csp.getLegalValues b c.1 c.2).erase v).card

/-- The order in which `lcvValues.sort(reverse=True)` leaves its
`(size, value)` pairs: descending lexicographic order on the pair. -/
def lcvGE (p q : Nat × Int) : Prop :=
  q.1 < p.1 ∨ (q.1 = p.1 ∧ q.2 ≤ p.2)

instance : DecidableRel lcvGE := fun p q => by unfold lcvGE; infer_instance

instance : IsTotal (Nat × Int) lcvGE :=
  ⟨fun p q => by unfold lcvGE; omega⟩

instance : IsTrans (Nat × Int) lcvGE :=
  ⟨fun p q r hpq hqr => by unfold lcvGE at *; omega⟩

/-- The elements of a multiset as an ascending list.  (Same value as
`Multiset.sort (· ≤ ·)`, but built on the structurally recursive
`insertionSort` so that it evaluates by kernel reduction.) -/
def msortAsc (m : Multiset Int) : List Int :=
  Quot.liftOn m (fun l => List.insertionSort (· ≤ ·) l) fun a b h =>
    List.eq_of_perm_of_sorted
      (((List.perm_insertionSort _ a).trans h).trans (List.perm_insertionSort _ b).symm)
      (List.sorted_insertionSort _ a) (List.sorted_insertionSort _ b)

/-- The elements of a `Finset Int` as an ascending list. -/
def ascList (s : Finset Int) : List Int :=
  msortAsc s.val

/-- `getLCVList(board, i, j)`: pair every legal value with its `lcvSum`,
sort the pairs in descending order (`sort(reverse=True)` on tuples is the
stable descending lexicographic sort; the pairs here are distinct, so the
result is order independent of the set-iteration order used to build the
list), and keep the values. -/
def SudokuCSP.getLCVList (csp : SudokuCSP) (b : Board) (i j : Nat) : List Int :=
  let legal := csp.getLegalValues b i j
  let pairs := (ascList legal).map fun v => (lcvSum csp b i j v, v)
  (List.insertionSort lcvGE pairs).map Prod.snd

/-- `checkNeighboursConsistent(board, i, j)`: every unassigned neighbour of
the cell still has at least one legal value. -/
def checkNeighboursConsistentVal (csp : SudokuCSP) (b : Board) (i j : Nat) : Bool :=
  decide (∀ c ∈ csp.getUnassignedNeighbours b i j, (csp.getLegalValues b c.1 c.2).card ≠ 0)

/-- The `conflictingCells` list built by `swapMinConflicts(board)`: all
cells, in row-major order, that are open in the initial board and fail the
single-cell `check` on the current board.  (`swapMinConflicts` then calls
`random.choice` on this list, which raises on an empty list.) -/
def conflictingCells (csp : SudokuCSP) (b : Board) : List (Nat × Nat) :=
  (rowMajorCells csp.n).filter fun c =>
    getCell (csp.initialBoard.getD []) c.1 c.2 = -1 ∧ checkVal csp b c.1 c.2 = false

/-- Write entry `(i, j)` of a reduced-domain grid; out-of-range writes
leave the grid unchanged. -/
def setDomG (rd : List (List (Finset Int))) (i j : Nat) (s : Finset Int) :
    List (List (Finset Int)) :=
  rd.set i ((rd.getD i []).set j s)

/-- Total number of values over all entries of a reduced-domain grid; the
well-founded measure that makes the AC-3 worklist loop terminate. -/
def totalSize (rd : List (List (Finset Int))) : Nat :=
  (rd.map fun row => (row.map Finset.card).sum).sum

/-- An upper bound on the number of worklist iterations still possible from
a given worklist and domain grid: each iteration either removes an arc (and
adds none) or strictly shrinks some domain entry while adding at most
`n * n` arcs. -/
def phi (n : Nat) (arcs : List ((Nat × Nat) × (Nat × Nat))) (rd : List (List (Finset Int))) :
    Nat :=
  arcs.length + totalSize rd * (n * n + 1)

/-- The `while len(arcs) != 0` worklist loop of `computeReducedDomains`,
with an explicit iteration budget `fuel`.  One iteration pops the front arc
`(x, y)`, removes from `x`'s domain every value `xv` such that
`domain(y) - {xv}` is empty, and, if anything was removed, re-appends all
arcs from `x` to its neighbours.  `acLoopFuel_stable` below proves that
`phi` many iterations always reach the loop's natural exit, so running the
loop with fuel `phi + 1` is a faithful model of the unbounded source loop. -/
def acLoopFuel (n m k : Nat) :
    Nat → List ((Nat × Nat) × (Nat × Nat)) → List (List (Finset Int)) →
      List (List (Finset Int))
  | 0, _, rd => rd
  | _ + 1, [], rd => rd
  | fuel + 1, (x, y) :: rest, rd =>
      let dx := getDomG rd x.1 x.2
      let dy := getDomG rd y.1 y.2
      let dx2 := dx.filter fun xv => ¬(dy.erase xv).card = 0
      if dx2 = dx then acLoopFuel n m k fuel rest rd
      else
        acLoopFuel n m k fuel (rest ++ (neighbourListP n m k x.1 x.2).map fun nb => (x, nb))
          (setDomG rd x.1 x.2 dx2)

/-- The initial reduced-domain grid of `computeReducedDomains`: every cell
starts with a copy of the full domain, then every cell pre-filled in the
initial board is overwritten with the singleton of its given value. -/
def initialDomains (n : Nat) (dom : Finset Int) (ib : Board) : List (List (Finset Int)) :=
  (List.range n).map fun i => (List.range n).map fun j =>
    if getCell ib i j = -1 then dom else {getCell ib i j}

/-- The initial worklist of `computeReducedDomains`: all directed arcs
`(cell, neighbour)` whose source cell is open in the initial board. -/
def initialArcs (n m k : Nat) (ib : Board) : List ((Nat × Nat) × (Nat × Nat)) :=
  ((rowMajorCells n).filter fun c => getCell ib c.1 c.2 = -1).flatMap fun c =>
    (neighbourListP n m k c.1 c.2).map fun nb => (c, nb)

/-- The reduced-domain grid computed by `computeReducedDomains` for an
engine whose initial board is `ib`. -/
def reducedGrid (n m k : Nat) (dom : Finset Int) (ib : Board) : List (List (Finset Int)) :=
  acLoopFuel n m k (phi n (initialArcs n m k ib) (initialDomains n dom ib) + 1)
    (initialArcs n m k ib) (initialDomains n dom ib)

/-- `computeReducedDomains()`: store the arc-consistency reduced domains on
the engine.  The source requires an initial board to be present (it reads
`self.initialBoard[i][j]` unconditionally); this model reads it with a
`getD []` default. -/
def SudokuCSP.computeReducedDomains (csp : SudokuCSP) : SudokuCSP :=
  let rd := reducedGrid csp.n csp.m csp.k csp.domain (csp.initialBoard.getD [])
  { csp with reducedDomains := some rd }

/-- Number of open cells of a board, within the actual list structure. -/
def openCount (b : Board) : Nat :=
  (b.map fun row => row.countP fun v => v = -1).sum

/-- The `for value in <candidates>` loop shared by all four recursive
backtracking drivers.  `next` is the driver's recursive call one level
deeper, `adm` its admissibility test.  The result triple is
`(success flag, state of the in-place board after the call, returned
board)` — on failure the source returns the sentinel `[[]]` while the
in-place board keeps whatever state the loop left it in. -/
def btTry (next : Board → Bool × Board × Board) (adm : Board → Nat → Nat → Bool)
    (i j : Nat) : List Int → Board → Bool × Board × Board
  | [], b => (false, b, [[]])
  | v :: vs, b =>
      let b1 := setCell b i j v
      if adm b1 i j then
        match next b1 with
        | (true, bs, rb) => (true, bs, rb)
        | (false, bs, _) => btTry next adm i j vs (setCell bs i j (-1))
      else btTry next adm i j vs (setCell b1 i j (-1))

/-- The common recursion of the four backtracking drivers: select a cell
(`sel`), succeed with the board as-is when selection yields `(-1, -1)`,
otherwise try the candidate values in order.  `fuel` bounds the recursion
depth; every driver below is run with fuel `openCount board + 1`, which the
C5 development shows is never exhausted on the executions the source
performs (each level assigns one open cell). -/
def btAux (sel : Board → Int × Int) (vals : Board → Nat → Nat → List Int)
    (adm : Board → Nat → Nat → Bool) : Nat → Board → Bool × Board × Board
  | 0, b => (false, b, [[]])
  | fuel + 1, b =>
      let p := sel b
      if p = (-1, -1) then (true, b, b)
      else
        btTry (fun b2 => btAux sel vals adm fuel b2) adm p.1.toNat p.2.toNat
          (vals b p.1.toNat p.2.toNat) b

/-- The ascending list of the full domain values, the order in which
`for value in csp.getDomain()` iterates `set(range(1, n+1))`. -/
def domainList (csp : SudokuCSP) : List Int :=
  ascList csp.domain

/-- `backtrackingRecursive(board, csp)`: plain backtracking — first open
cell in row-major order, full domain in ascending order, `check` as the
admissibility test. -/
def backtrackingRecursive (csp : SudokuCSP) (b : Board) : Bool × Board × Board :=
  btAux (csp.getFirstOpenCell) (fun _ _ _ => domainList csp)
    (fun b2 i j => checkVal csp b2 i j) (openCount b + 1) b

/-- `backtrackingMRVRecursive(board, csp)`: MRV cell selection, LCV value
order, `check` as the admissibility test. -/
def backtrackingMRVRecursive (csp : SudokuCSP) (b : Board) : Bool × Board × Board :=
  btAux (csp.getOpenCellMRV) (fun b2 i j => csp.getLCVList b2 i j)
    (fun b2 i j => checkVal csp b2 i j) (openCount b + 1) b

/-- `backtrackingMRVfwdRecursive(board, csp)`: MRV cell selection, LCV
value order, `check` conjoined with the forward-checking test
`checkNeighboursConsistent`. -/
def backtrackingMRVfwdRecursive (csp : SudokuCSP) (b : Board) : Bool × Board × Board :=
  btAux (csp.getOpenCellMRV) (fun b2 i j => csp.getLCVList b2 i j)
    (fun b2 i j => checkVal csp b2 i j && checkNeighboursConsistentVal csp b2 i j)
    (openCount b + 1) b

/-- `backtrackingMRVcpRecursive(board, csp)`: textually identical to the
MRV driver (the constraint-propagation variant differs only in the engine
it is run against, whose `reducedDomains` have been precomputed). -/
def backtrackingMRVcpRecursive (csp : SudokuCSP) (b : Board) : Bool × Board × Board :=
  btAux (csp.getOpenCellMRV) (fun b2 i j => csp.getLCVList b2 i j)
    (fun b2 i j => checkVal csp b2 i j) (openCount b + 1) b

/-- `check(board, i, j, incrCheckCount=True)` as a state transformer: the
boolean result together with the engine, whose counter is incremented
exactly when `incrCheckCount` is true. -/
def SudokuCSP.check (csp : SudokuCSP) (b : Board) (i j : Nat)
    (incrCheckCount : Bool) : Bool × SudokuCSP :=
  (checkVal csp b i j,
    if incrCheckCount then { csp with checks := csp.checks + 1 } else csp)

/-- `checkAll(board)` as a state transformer: the counter is incremented
once per call, unconditionally. -/
def SudokuCSP.checkAll (csp : SudokuCSP) (b : Board) : Bool × SudokuCSP :=
  (checkAllVal csp b, { csp with checks := csp.checks + 1 })

/-- `getLegalValues` as a state transformer: the method never writes the
counter, so the engine comes back unchanged. -/
def SudokuCSP.getLegalValuesS (csp : SudokuCSP) (b : Board) (i j : Nat) :
    Finset Int × SudokuCSP :=
  (csp.getLegalValues b i j, csp)

/-- `getLCVList` as a state transformer: no counter write. -/
def SudokuCSP.getLCVListS (csp : SudokuCSP) (b : Board) (i j : Nat) :
    List Int × SudokuCSP :=
  (csp.getLCVList b i j, csp)

/-- `getNeighbours` as a state transformer: no counter write. -/
def SudokuCSP.getNeighboursS (csp : SudokuCSP) (i j : Nat) :
    Finset (Nat × Nat) × SudokuCSP :=
  (csp.getNeighbours i j, csp)

/-- `getUnassignedNeighbours` as a state transformer: no counter write. -/
def SudokuCSP.getUnassignedNeighboursS (csp : SudokuCSP) (b : Board) (i j : Nat) :
    Finset (Nat × Nat) × SudokuCSP :=
  (csp.getUnassignedNeighbours b i j, csp)

/-- `getOpenCellMRV` as a state transformer: no counter write. -/
def SudokuCSP.getOpenCellMRVS (csp : SudokuCSP) (b : Board) :
    (Int × Int) × SudokuCSP :=
  (csp.getOpenCellMRV b, csp)

/-- `getFirstOpenCell` as a state transformer: no counter write. -/
def SudokuCSP.getFirstOpenCellS (csp : SudokuCSP) (b : Board) :
    (Int × Int) × SudokuCSP :=
  (csp.getFirstOpenCell b, csp)

example : checkVal (SudokuCSP.init 4 2 2 none) [[1, 2, 3, 4], [3, 4, 1, 2], [-1, -1, -1, -1], [-1, -1, -1, -1]] 0 0 = true := by decide
example : checkVal (SudokuCSP.init 4 2 2 none) [[1, 1, 3, 4], [3, 4, 1, 2], [-1, -1, -1, -1], [-1, -1, -1, -1]] 0 0 = false := by decide
example : (SudokuCSP.init 4 2 2 none).getNeighbours 0 0 =
    ({(0,1),(0,2),(0,3),(1,0),(2,0),(3,0),(1,1)} : Finset (Nat × Nat)) := by decide

example : (SudokuCSP.init 2 1 2 none).getLCVList [[-1, -1], [-1, -1]] 0 0 = [2, 1] := by decide
example : lcvSum (SudokuCSP.init 2 1 2 none) [[-1, -1], [-1, -1]] 0 0 1 =
    lcvSum (SudokuCSP.init 2 1 2 none) [[-1, -1], [-1, -1]] 0 0 2 := by decide
example : checkAllVal (SudokuCSP.init 2 1 2 none) [[1, 2], [2, 1]] = true := by decide
example : checkAllVal (SudokuCSP.init 2 1 2 none) [[1, 1], [2, 2]] = false := by decide
example : conflictingCells (SudokuCSP.init 2 1 2 (some [[1, 1], [2, 2]])) [[1, 1], [2, 2]] = [] := by decide
example : (SudokuCSP.init 2 1 2 (some [[1, -1], [-1, -1]])).getOpenCellMRV [[1, -1], [-1, -1]] = (0, 1) := by decide
example : (SudokuCSP.init 2 1 2 none).getFirstOpenCell [[1, 2], [2, -1]] = (1, 1) := by decide

example :
    reducedGrid 2 1 2 (Finset.Icc 1 2) [[1, -1], [-1, -1]] =
      [[{1}, {2}], [{2}, {1}]] := by decide
example : (backtrackingRecursive (SudokuCSP.init 2 1 2 none) [[1, -1], [-1, -1]]).2.2 =
    [[1, 2], [2, 1]] := by decide
example : (backtrackingMRVRecursive (SudokuCSP.init 2 1 2 none) [[1, -1], [-1, -1]]).1 = true := by decide
example : (backtrackingRecursive (SudokuCSP.init 2 1 2 none) [[1, 1], [-1, -1]]) =
    (false, [[1, 1], [-1, -1]], [[]]) := by decide

theorem set_getD_self {α : Type} (l : List α) (n : Nat) (d : α) (h : n < l.length) :
    l.set n (l.getD n d) = l := by
  induction l generalizing n with
  | nil => simp at h
  | cons a t ih =>
      cases n with
      | zero => simp
      | succ n =>
          simp only [List.length_cons] at h
          simp only [List.getD_cons_succ, List.set_cons_succ, List.cons.injEq, true_and]
          exact ih n (by omega)

theorem sum_set_add (l : List Nat) (n : Nat) (v : Nat) (h : n < l.length) :
    (l.set n v).sum + l.getD n 0 = l.sum + v := by
  induction l generalizing n with
  | nil => simp at h
  | cons a t ih =>
      cases n with
      | zero => simp [List.sum_cons]; omega
      | succ n =>
          simp only [List.length_cons] at h
          simp only [List.set_cons_succ, List.sum_cons, List.getD_cons_succ]
          have := ih n (by omega)
          omega

theorem mem_rowMajorCells {n : Nat} {c : Nat × Nat} :
    c ∈ rowMajorCells n ↔ c.1 < n ∧ c.2 < n := by
  obtain ⟨a, b⟩ := c
  constructor
  · intro h
    simp only [rowMajorCells, List.mem_flatMap, List.mem_map, List.mem_range] at h
    obtain ⟨i, hi, j, hj, h2⟩ := h
    obtain ⟨rfl, rfl⟩ := Prod.mk.injEq .. ▸ h2
    exact ⟨hi, hj⟩
  · rintro ⟨h1, h2⟩
    simp only [rowMajorCells, List.mem_flatMap, List.mem_map, List.mem_range]
    exact ⟨a, h1, b, h2, rfl⟩

theorem rowMajorCells_nodup (n : Nat) : (rowMajorCells n).Nodup := by
  rw [rowMajorCells, List.nodup_flatMap]
  constructor
  · intro i hi
    exact List.Nodup.map (fun a b h => by simpa using h) (List.nodup_range n)
  · refine List.Pairwise.imp ?_ (List.pairwise_lt_range n)
    intro i j hij
    simp only [Function.onFun, List.disjoint_left, List.mem_map, List.mem_range]
    rintro x ⟨a, ha, rfl⟩ ⟨y, hy, h⟩
    exact absurd (congrArg Prod.fst h.symm) (by simpa using Nat.ne_of_lt hij)

theorem getCell_ranges {b : Board} {i j : Nat} (h : getCell b i j ≠ 0) :
    i < b.length ∧ j < (b.getD i []).length := by
  by_cases hi : i < b.length
  · refine ⟨hi, ?_⟩
    by_cases hj : j < (b.getD i []).length
    · exact hj
    · refine absurd ?_ h
      show (b.getD i []).getD j 0 = 0
      exact List.getD_eq_default _ _ (by omega)
  · refine absurd ?_ h
    show (b.getD i []).getD j 0 = 0
    have he : b.getD i [] = ([] : List Int) :=
      List.getD_eq_default _ _ (by omega : b.length ≤ i)
    rw [he]
    rfl

theorem setCell_setCell (b : Board) (i j : Nat) (v w : Int) :
    setCell (setCell b i j v) i j w = setCell b i j w := by
  by_cases hi : i < b.length
  · unfold setCell
    have hr : (b.set i ((b.getD i []).set j v)).getD i [] = (b.getD i []).set j v := by
      rw [List.getD_eq_getElem _ _ (by simpa using hi)]
      simp
    rw [hr, List.set_set, List.set_set]
  · have h1 : setCell b i j v = b := by
      unfold setCell
      exact List.set_eq_of_length_le (by omega)
    rw [h1]

theorem setCell_cancel {b : Board} {i j : Nat} (h : getCell b i j = -1) (v : Int) :
    setCell (setCell b i j v) i j (-1) = b := by
  rw [setCell_setCell]
  have hr := getCell_ranges (by rw [h]; decide)
  have hinner : (b.getD i []).set j (-1) = b.getD i [] := by
    have : ((-1 : Int)) = (b.getD i []).getD j 0 := by
      have : getCell b i j = (b.getD i []).getD j 0 := rfl
      omega
    rw [this]
    exact set_getD_self _ _ _ hr.2
  unfold setCell
  rw [hinner]
  exact set_getD_self _ _ _ hr.1

/-- A cell selector (`getFirstOpenCell` or `getOpenCellMRV`) returns either
the sentinel pair `(-1, -1)` or the coordinates of an open cell. -/
def selOpens (sel : Board → Int × Int) : Prop :=
  ∀ b : Board, sel b = (-1, -1) ∨
    ∃ a c : Nat, sel b = ((a : Int), (c : Int)) ∧ getCell b a c = -1

theorem getFirstOpenCell_selOpens (csp : SudokuCSP) :
    selOpens (csp.getFirstOpenCell) := by
  intro b
  unfold SudokuCSP.getFirstOpenCell
  cases hf : (rowMajorCells csp.n).find? (fun c => getCell b c.1 c.2 = -1) with
  | none => exact Or.inl rfl
  | some c =>
      refine Or.inr ⟨c.1, c.2, rfl, ?_⟩
      have := List.find?_some hf
      exact of_decide_eq_true this

theorem getOpenCellMRV_selOpens (csp : SudokuCSP) :
    selOpens (csp.getOpenCellMRV) := by
  intro b
  unfold SudokuCSP.getOpenCellMRV
  have main : ∀ (cells : List (Nat × Nat)) (acc : Nat × (Int × Int)),
      (acc.2 = (-1, -1) ∨ ∃ a c : Nat, acc.2 = ((a : Int), (c : Int)) ∧ getCell b a c = -1) →
      ((cells.foldl
        (fun acc c =>
          if getCell b c.1 c.2 = -1 then
            let size := (csp.getLegalValues b c.1 c.2).card
            if size < acc.1 then (size, ((c.1 : Int), (c.2 : Int))) else acc
          else acc) acc).2 = (-1, -1) ∨
        ∃ a c : Nat,
          ((cells.foldl
            (fun acc c =>
              if getCell b c.1 c.2 = -1 then
                let size := (csp.getLegalValues b c.1 c.2).card
                if size < acc.1 then (size, ((c.1 : Int), (c.2 : Int))) else acc
              else acc) acc).2 = ((a : Int), (c : Int)) ∧ getCell b a c = -1)) := by
    intro cells
    induction cells with
    | nil => intro acc h; exact h
    | cons hd tl ih =>
        intro acc h
        simp only [List.foldl_cons]
        apply ih
        by_cases h1 : getCell b hd.1 hd.2 = -1
        · by_cases h2 : (csp.getLegalValues b hd.1 hd.2).card < acc.1
          · simp only [h1, if_true, h2]
            exact Or.inr ⟨hd.1, hd.2, rfl, h1⟩
          · simpa only [h1, if_true, h2, if_false] using h
        · simpa only [h1, if_false] using h
  exact main (rowMajorCells csp.n) (csp.n + 1, (-1, -1)) (Or.inl rfl)

theorem btTry_restore {next : Board → Bool × Board × Board} {adm : Board → Nat → Nat → Bool}
    {i j : Nat} (Hnext : ∀ b2, (next b2).1 = false → (next b2).2.1 = b2)
    {b : Board} (hopen : getCell b i j = -1) :
    ∀ vs : List Int, (btTry next adm i j vs b).1 = false →
      (btTry next adm i j vs b).2.1 = b ∧ (btTry next adm i j vs b).2.2 = [[]] := by
  intro vs
  induction vs with
  | nil => intro _; exact ⟨rfl, rfl⟩
  | cons v vs ih =>
      intro hfail
      by_cases hadm : adm (setCell b i j v) i j = true
      · rcases hnb : next (setCell b i j v) with ⟨tf, bs, rb⟩
        cases tf with
        | true =>
            simp only [btTry, hadm, if_true, hnb] at hfail
            exact absurd hfail (by decide)
        | false =>
            have hbs : bs = setCell b i j v := by
              have := Hnext (setCell b i j v) (by rw [hnb])
              rw [hnb] at this
              exact this
            have hcan : setCell bs i j (-1) = b := by
              rw [hbs]
              exact setCell_cancel hopen v
            simp only [btTry, hadm, if_true, hnb, hcan] at hfail ⊢
            exact ih hfail
      · have hadm2 : adm (setCell b i j v) i j = false := by
          cases h : adm (setCell b i j v) i j
          · rfl
          · exact absurd h hadm
        have hcan : setCell (setCell b i j v) i j (-1) = b := setCell_cancel hopen v
        simp only [btTry, hadm2, Bool.false_eq_true, if_false, hcan] at hfail ⊢
        exact ih hfail

theorem btTry_success {next : Board → Bool × Board × Board} {adm : Board → Nat → Nat → Bool}
    {i j : Nat} (P : Board → Board → Prop)
    (Hnext : ∀ b2 bs rb, next b2 = (true, bs, rb) → P bs rb) :
    ∀ (vs : List Int) (b bs rb : Board), btTry next adm i j vs b = (true, bs, rb) → P bs rb := by
  intro vs
  induction vs with
  | nil =>
      intro b bs rb h
      simp only [btTry, Prod.mk.injEq] at h
      exact absurd h.1 (by decide)
  | cons v vs ih =>
      intro b bs rb h
      by_cases hadm : adm (setCell b i j v) i j = true
      · rcases hnb : next (setCell b i j v) with ⟨tf, bs2, rb2⟩
        cases tf with
        | true =>
            simp only [btTry, hadm, if_true, hnb] at h
            obtain ⟨rfl, rfl⟩ : bs2 = bs ∧ rb2 = rb := by
              constructor
              · exact congrArg (fun t => t.2.1) h
              · exact congrArg (fun t => t.2.2) h
            exact Hnext _ _ _ hnb
        | false =>
            simp only [btTry, hadm, if_true, hnb] at h
            exact ih _ _ _ h
      · have hadm2 : adm (setCell b i j v) i j = false := by
          cases h2 : adm (setCell b i j v) i j
          · rfl
          · exact absurd h2 hadm
        simp only [btTry, hadm2, Bool.false_eq_true, if_false] at h
        exact ih _ _ _ h

theorem btAux_restore {sel : Board → Int × Int} {vals : Board → Nat → Nat → List Int}
    {adm : Board → Nat → Nat → Bool} (hsel : selOpens sel) :
    ∀ (fuel : Nat) (b : Board), (btAux sel vals adm fuel b).1 = false →
      (btAux sel vals adm fuel b).2.1 = b ∧ (btAux sel vals adm fuel b).2.2 = [[]] := by
  intro fuel
  induction fuel with
  | zero => intro b _; exact ⟨rfl, rfl⟩
  | succ fuel ih =>
      intro b hfail
      by_cases hp : sel b = (-1, -1)
      · simp only [btAux, hp, if_true] at hfail
        exact absurd hfail (by decide)
      · rcases hsel b with h | ⟨a, c, hac, hopen⟩
        · exact absurd h hp
        · simp only [btAux] at hfail ⊢
          rw [if_neg hp] at hfail ⊢
          rw [hac] at hfail ⊢
          simp only [Int.toNat_natCast] at hfail ⊢
          exact btTry_restore (fun b2 hb2 => (ih b2 hb2).1) hopen _ hfail

theorem btAux_success {sel : Board → Int × Int} {vals : Board → Nat → Nat → List Int}
    {adm : Board → Nat → Nat → Bool} :
    ∀ (fuel : Nat) (b bs rb : Board), btAux sel vals adm fuel b = (true, bs, rb) →
      rb = bs ∧ sel rb = (-1, -1) := by
  intro fuel
  induction fuel with
  | zero =>
      intro b bs rb h
      simp only [btAux, Prod.mk.injEq] at h
      exact absurd h.1 (by decide)
  | succ fuel ih =>
      intro b bs rb h
      by_cases hp : sel b = (-1, -1)
      · simp only [btAux, hp, if_true, Prod.mk.injEq, true_and] at h
        obtain ⟨hbs, hrb⟩ := h
        subst hbs
        subst hrb
        exact ⟨rfl, hp⟩
      · simp only [btAux] at h
        rw [if_neg hp] at h
        exact btTry_success (fun bs2 rb2 => rb2 = bs2 ∧ sel rb2 = (-1, -1))
          (fun b2 bs2 rb2 h2 => ih b2 bs2 rb2 h2) _ _ _ _ h

theorem btDriver_spec {sel : Board → Int × Int} {vals : Board → Nat → Nat → List Int}
    {adm : Board → Nat → Nat → Bool} (hsel : selOpens sel) (b : Board) :
    (((btAux sel vals adm (openCount b + 1) b).1 = true ∧
        (btAux sel vals adm (openCount b + 1) b).2.2 = b) ↔ sel b = (-1, -1)) ∧
    ((btAux sel vals adm (openCount b + 1) b).1 = true →
      (btAux sel vals adm (openCount b + 1) b).2.2 =
        (btAux sel vals adm (openCount b + 1) b).2.1) ∧
    ((btAux sel vals adm (openCount b + 1) b).1 = false →
      (btAux sel vals adm (openCount b + 1) b).2.1 = b ∧
        (btAux sel vals adm (openCount b + 1) b).2.2 = [[]]) := by
  refine ⟨⟨?_, ?_⟩, ?_, ?_⟩
  · rintro ⟨h1, h2⟩
    rcases hR : btAux sel vals adm (openCount b + 1) b with ⟨tf, bs, rb⟩
    rw [hR] at h1 h2
    simp only at h1 h2
    subst h1
    have := btAux_success _ _ _ _ hR
    rw [h2] at this
    exact this.2
  · intro hp
    have hEq : btAux sel vals adm (openCount b + 1) b = (true, b, b) := by
      simp only [btAux, hp, if_true]
    rw [hEq]
    exact ⟨rfl, rfl⟩
  · intro h1
    rcases hR : btAux sel vals adm (openCount b + 1) b with ⟨tf, bs, rb⟩
    rw [hR] at h1
    simp only at h1
    subst h1
    have := btAux_success _ _ _ _ hR
    exact this.1
  · exact btAux_restore hsel _ b

/-- **C5**: every backtracking-family driver (`backtrackingRecursive`,
`backtrackingMRVRecursive`, `backtrackingMRVfwdRecursive`,
`backtrackingMRVcpRecursive`) returns success with the board as-is exactly
when its cell selection yields `(-1, -1)`; on success the returned board is
the in-place board; and when it returns failure, the in-place board on exit
equals the board on entry and the returned value is the `[[]]` sentinel
with a `false` flag, distinguishable from any successful result. -/
theorem backtracking_drivers_contract (csp : SudokuCSP) (b : Board) :
    ((((backtrackingRecursive csp b).1 = true ∧ (backtrackingRecursive csp b).2.2 = b) ↔
        csp.getFirstOpenCell b = (-1, -1)) ∧
      ((backtrackingRecursive csp b).1 = true →
        (backtrackingRecursive csp b).2.2 = (backtrackingRecursive csp b).2.1) ∧
      ((backtrackingRecursive csp b).1 = false →
        (backtrackingRecursive csp b).2.1 = b ∧ (backtrackingRecursive csp b).2.2 = [[]])) ∧
    ((((backtrackingMRVRecursive csp b).1 = true ∧ (backtrackingMRVRecursive csp b).2.2 = b) ↔
        csp.getOpenCellMRV b = (-1, -1)) ∧
      ((backtrackingMRVRecursive csp b).1 = true →
        (backtrackingMRVRecursive csp b).2.2 = (backtrackingMRVRecursive csp b).2.1) ∧
      ((backtrackingMRVRecursive csp b).1 = false →
        (backtrackingMRVRecursive csp b).2.1 = b ∧
          (backtrackingMRVRecursive csp b).2.2 = [[]])) ∧
    ((((backtrackingMRVfwdRecursive csp b).1 = true ∧
          (backtrackingMRVfwdRecursive csp b).2.2 = b) ↔
        csp.getOpenCellMRV b = (-1, -1)) ∧
      ((backtrackingMRVfwdRecursive csp b).1 = true →
        (backtrackingMRVfwdRecursive csp b).2.2 = (backtrackingMRVfwdRecursive csp b).2.1) ∧
      ((backtrackingMRVfwdRecursive csp b).1 = false →
        (backtrackingMRVfwdRecursive csp b).2.1 = b ∧
          (backtrackingMRVfwdRecursive csp b).2.2 = [[]])) ∧
    ((((backtrackingMRVcpRecursive csp b).1 = true ∧
          (backtrackingMRVcpRecursive csp b).2.2 = b) ↔
        csp.getOpenCellMRV b = (-1, -1)) ∧
      ((backtrackingMRVcpRecursive csp b).1 = true →
        (backtrackingMRVcpRecursive csp b).2.2 = (backtrackingMRVcpRecursive csp b).2.1) ∧
      ((backtrackingMRVcpRecursive csp b).1 = false →
        (backtrackingMRVcpRecursive csp b).2.1 = b ∧
          (backtrackingMRVcpRecursive csp b).2.2 = [[]])) := by
  exact ⟨btDriver_spec (getFirstOpenCell_selOpens csp) b,
    btDriver_spec (getOpenCellMRV_selOpens csp) b,
    btDriver_spec (getOpenCellMRV_selOpens csp) b,
    btDriver_spec (getOpenCellMRV_selOpens csp) b⟩

/-- **C10**: when `check(board, i, j)` is applied to a cell that currently
holds the sentinel `-1`, the sentinel participates in the duplicate test
like a real value: the call returns `false` exactly when some neighbour of
`(i, j)` is also unassigned, and `true` exactly when every neighbour holds
an assigned value. -/
theorem check_on_unassigned_cell (csp : SudokuCSP) (b : Board) (i j : Nat)
    (h : getCell b i j = -1) :
    (checkVal csp b i j = false ↔
      ∃ c ∈ csp.getNeighbours i j, getCell b c.1 c.2 = -1) ∧
    (checkVal csp b i j = true ↔
      ∀ c ∈ csp.getNeighbours i j, getCell b c.1 c.2 ≠ -1) := by
  unfold checkVal SudokuCSP.neighbourValues
  rw [h]
  constructor
  · rw [decide_eq_false_iff_not, not_not, Finset.mem_image]
  · rw [decide_eq_true_eq, Finset.mem_image]
    push_neg
    rfl

theorem check_on_unassigned_cell_witness :
    getCell [[-1, 2], [2, 1]] 0 0 = -1 ∧
      ((checkVal (SudokuCSP.init 2 1 2 none) [[-1, 2], [2, 1]] 0 0 = false ↔
          ∃ c ∈ (SudokuCSP.init 2 1 2 none).getNeighbours 0 0,
            getCell [[-1, 2], [2, 1]] c.1 c.2 = -1) ∧
        (checkVal (SudokuCSP.init 2 1 2 none) [[-1, 2], [2, 1]] 0 0 = true ↔
          ∀ c ∈ (SudokuCSP.init 2 1 2 none).getNeighbours 0 0,
            getCell [[-1, 2], [2, 1]] c.1 c.2 ≠ -1)) :=
  ⟨by decide, check_on_unassigned_cell (SudokuCSP.init 2 1 2 none) [[-1, 2], [2, 1]] 0 0 (by decide)⟩

/-- **C9**: the check counter is monotonically non-decreasing under every
engine operation: `check` adds exactly `1` when `incrCheckCount` is true
and `0` when it is false, `checkAll` adds exactly `1`, and
`getLegalValues`, `getLCVList`, `getNeighbours`, `getUnassignedNeighbours`,
`getOpenCellMRV` and `getFirstOpenCell` leave the counter unchanged. -/
theorem check_counter_discipline (csp : SudokuCSP) (b : Board) (i j : Nat)
    (incr : Bool) :
    (csp.check b i j incr).2.checks = csp.checks + (if incr then 1 else 0) ∧
    (csp.checkAll b).2.checks = csp.checks + 1 ∧
    (csp.getLegalValuesS b i j).2.checks = csp.checks ∧
    (csp.getLCVListS b i j).2.checks = csp.checks ∧
    (csp.getNeighboursS i j).2.checks = csp.checks ∧
    (csp.getUnassignedNeighboursS b i j).2.checks = csp.checks ∧
    (csp.getOpenCellMRVS b).2.checks = csp.checks ∧
    (csp.getFirstOpenCellS b).2.checks = csp.checks := by
  refine ⟨?_, rfl, rfl, rfl, rfl, rfl, rfl, rfl⟩
  cases incr
  · rfl
  · rfl

theorem block_interval {m i a : Nat} (hm : 0 < m) :
    (i / m * m ≤ a ∧ a < i / m * m + m) ↔ a / m = i / m := by
  constructor
  · rintro ⟨h1, h2⟩
    exact Nat.div_eq_of_lt_le h1 (by rw [Nat.succ_mul]; exact h2)
  · intro h
    rw [← h]
    have h1 : m * (a / m) + a % m = a := Nat.div_add_mod a m
    have h2 : a % m < m := Nat.mod_lt _ hm
    have h3 : a / m * m = m * (a / m) := Nat.mul_comm _ _
    omega

theorem block_end_le {m n i : Nat} (hm : 0 < m) (hmn : m ∣ n) (hi : i < n) :
    i / m * m + m ≤ n := by
  have h1 : i / m < n / m := Nat.div_lt_div_of_lt_of_dvd hmn hi
  have h2 : (i / m + 1) * m ≤ n / m * m := Nat.mul_le_mul_right m h1
  have h3 : n / m * m = n := Nat.div_mul_cancel hmn
  have h4 : (i / m + 1) * m = i / m * m + m := Nat.succ_mul _ _
  omega

theorem self_mem_block {m i : Nat} (hm : 0 < m) :
    i / m * m ≤ i ∧ i < i / m * m + m :=
  block_interval hm |>.mpr rfl

theorem mem_getNeighbours {csp : SudokuCSP} (hm : 0 < csp.m) (hk : 0 < csp.k)
    (hmn : csp.n % csp.m = 0) (hkn : csp.n % csp.k = 0)
    {i j : Nat} (hi : i < csp.n) (hj : j < csp.n) {a b : Nat} :
    (a, b) ∈ csp.getNeighbours i j ↔
      ((a, b) ≠ (i, j) ∧ a < csp.n ∧ b < csp.n ∧
        (a = i ∨ b = j ∨ (a / csp.m = i / csp.m ∧ b / csp.k = j / csp.k))) := by
  have hmd : csp.m ∣ csp.n := Nat.dvd_of_mod_eq_zero hmn
  have hkd : csp.k ∣ csp.n := Nat.dvd_of_mod_eq_zero hkn
  unfold SudokuCSP.getNeighbours neighbourCells
  rw [Finset.mem_erase]
  simp only [Finset.mem_union, Finset.mem_product, Finset.mem_singleton, Finset.mem_range,
    Finset.mem_Ico]
  constructor
  · rintro ⟨hne, (⟨⟨ha, hb⟩ | ⟨ha, hb⟩⟩ | ⟨hra, hrb⟩)⟩
    · exact ⟨hne, ha ▸ hi, hb, Or.inl ha⟩
    · exact ⟨hne, ha, hb ▸ hj, Or.inr (Or.inl hb)⟩
    · refine ⟨hne, ?_, ?_, Or.inr (Or.inr ⟨(block_interval hm).mp hra,
        (block_interval hk).mp hrb⟩)⟩
      · exact lt_of_lt_of_le hra.2 (block_end_le hm hmd hi)
      · exact lt_of_lt_of_le hrb.2 (block_end_le hk hkd hj)
  · rintro ⟨hne, ha, hb, (rfl | rfl | ⟨hra, hrb⟩)⟩
    · exact ⟨hne, Or.inl (Or.inl ⟨rfl, hb⟩)⟩
    · exact ⟨hne, Or.inl (Or.inr ⟨ha, rfl⟩)⟩
    · exact ⟨hne, Or.inr ⟨(block_interval hm).mpr hra, (block_interval hk).mpr hrb⟩⟩

theorem sub_one_mul_sub_one {m k : Nat} (hm : 0 < m) (hk : 0 < k) :
    (m - 1) * (k - 1) + m + k = m * k + 1 := by
  obtain ⟨m2, rfl⟩ : ∃ m2, m = m2 + 1 := ⟨m - 1, by omega⟩
  obtain ⟨k2, rfl⟩ : ∃ k2, k = k2 + 1 := ⟨k - 1, by omega⟩
  simp only [Nat.add_sub_cancel]
  ring

theorem getNeighbours_card {csp : SudokuCSP} (hm : 0 < csp.m) (hk : 0 < csp.k)
    (hmn : csp.n % csp.m = 0) (hkn : csp.n % csp.k = 0)
    {i j : Nat} (hi : i < csp.n) (hj : j < csp.n) :
    (csp.getNeighbours i j).card = 2 * (csp.n - 1) + (csp.m - 1) * (csp.k - 1) := by
  have hmd : csp.m ∣ csp.n := Nat.dvd_of_mod_eq_zero hmn
  have hkd : csp.k ∣ csp.n := Nat.dvd_of_mod_eq_zero hkn
  set n := csp.n with hn
  set m := csp.m with hmdef
  set k := csp.k with hkdef
  set sbi := i / m * m with hsbi
  set sbj := j / k * k with hsbj
  have hiblock : sbi ≤ i ∧ i < sbi + m := self_mem_block hm
  have hjblock : sbj ≤ j ∧ j < sbj + k := self_mem_block hk
  have hiend : sbi + m ≤ n := block_end_le hm hmd hi
  have hjend : sbj + k ≤ n := block_end_le hk hkd hj
  set rowF := (({i} : Finset Nat) ×ˢ Finset.range n) with hrowF
  set colF := (Finset.range n ×ˢ ({j} : Finset Nat)) with hcolF
  set subF := (Finset.Ico sbi (sbi + m) ×ˢ Finset.Ico sbj (sbj + k)) with hsubF
  have hN : csp.getNeighbours i j = ((rowF ∪ colF) ∪ subF).erase (i, j) := rfl
  have cardRow : rowF.card = n := by
    rw [hrowF, Finset.card_product, Finset.card_singleton, Finset.card_range, Nat.one_mul]
  have cardCol : colF.card = n := by
    rw [hcolF, Finset.card_product, Finset.card_singleton, Finset.card_range, Nat.mul_one]
  have cardSub : subF.card = m * k := by
    rw [hsubF, Finset.card_product, Nat.card_Ico, Nat.card_Ico,
      Nat.add_sub_cancel_left, Nat.add_sub_cancel_left]
  have hrc : rowF ∩ colF = {(i, j)} := by
    ext ⟨a, b⟩
    simp only [Finset.mem_inter, hrowF, hcolF, Finset.mem_product, Finset.mem_singleton,
      Finset.mem_range, Prod.mk.injEq]
    constructor
    · rintro ⟨⟨ha, _⟩, _, hb⟩
      exact ⟨ha, hb⟩
    · rintro ⟨rfl, rfl⟩
      exact ⟨⟨by trivial, hj⟩, hi, by trivial⟩
  have hrs : rowF ∩ subF = ({i} : Finset Nat) ×ˢ Finset.Ico sbj (sbj + k) := by
    ext ⟨a, b⟩
    simp only [Finset.mem_inter, hrowF, hsubF, Finset.mem_product, Finset.mem_singleton,
      Finset.mem_range, Finset.mem_Ico]
    constructor
    · rintro ⟨⟨ha, _⟩, _, hb⟩
      exact ⟨ha, hb⟩
    · rintro ⟨rfl, hb⟩
      exact ⟨⟨by trivial, by omega⟩, by omega, hb⟩
  have hcs : colF ∩ subF = Finset.Ico sbi (sbi + m) ×ˢ ({j} : Finset Nat) := by
    ext ⟨a, b⟩
    simp only [Finset.mem_inter, hcolF, hsubF, Finset.mem_product, Finset.mem_singleton,
      Finset.mem_range, Finset.mem_Ico]
    constructor
    · rintro ⟨⟨_, hb⟩, ha, _⟩
      exact ⟨ha, hb⟩
    · rintro ⟨ha, rfl⟩
      exact ⟨⟨by omega, by trivial⟩, ha, by omega⟩
  have cardRS : (rowF ∩ subF).card = k := by
    rw [hrs, Finset.card_product, Finset.card_singleton, Nat.card_Ico, Nat.one_mul]
    omega
  have cardCS : (colF ∩ subF).card = m := by
    rw [hcs, Finset.card_product, Finset.card_singleton, Nat.card_Ico, Nat.mul_one]
    omega
  have hrscs : (rowF ∩ subF) ∩ (colF ∩ subF) = {(i, j)} := by
    rw [hrs, hcs]
    ext ⟨a, b⟩
    simp only [Finset.mem_inter, Finset.mem_product, Finset.mem_singleton, Finset.mem_Ico,
      Prod.mk.injEq]
    constructor
    · rintro ⟨⟨ha, _⟩, _, hb⟩
      exact ⟨ha, hb⟩
    · rintro ⟨rfl, rfl⟩
      exact ⟨⟨by trivial, by omega⟩, by omega, by trivial⟩
  have e1 : (rowF ∪ colF).card + 1 = n + n := by
    have := Finset.card_union_add_card_inter rowF colF
    rw [hrc, Finset.card_singleton, cardRow, cardCol] at this
    exact this
  have hdistrib : (rowF ∪ colF) ∩ subF = (rowF ∩ subF) ∪ (colF ∩ subF) :=
    Finset.union_inter_distrib_right rowF colF subF
  have e2 : ((rowF ∪ colF) ∩ subF).card + 1 = k + m := by
    have := Finset.card_union_add_card_inter (rowF ∩ subF) (colF ∩ subF)
    rw [hrscs, Finset.card_singleton, cardRS, cardCS] at this
    rw [hdistrib]
    exact this
  have e3 : ((rowF ∪ colF) ∪ subF).card + ((rowF ∪ colF) ∩ subF).card =
      (rowF ∪ colF).card + subF.card :=
    Finset.card_union_add_card_inter _ _
  have hijmem : (i, j) ∈ (rowF ∪ colF) ∪ subF := by
    apply Finset.mem_union_left
    apply Finset.mem_union_left
    rw [hrowF]
    simp only [Finset.mem_product, Finset.mem_singleton, Finset.mem_range]
    exact ⟨by trivial, hj⟩
  have e4 : (csp.getNeighbours i j).card + 1 = ((rowF ∪ colF) ∪ subF).card := by
    rw [hN, Finset.card_erase_of_mem hijmem]
    have hpos : 0 < ((rowF ∪ colF) ∪ subF).card := Finset.card_pos.mpr ⟨(i, j), hijmem⟩
    omega
  have hmn2 : m ≤ n := Nat.le_of_dvd (by omega) hmd
  have hkn2 : k ≤ n := Nat.le_of_dvd (by omega) hkd
  have e5 : (m - 1) * (k - 1) + m + k = m * k + 1 := sub_one_mul_sub_one hm hk
  rw [cardSub] at e3
  omega

/-- **C4**: for every valid `(n, m, k)` (`m, k ≥ 1`, `n % m = 0`,
`n % k = 0`) and every cell `(i, j)` with `i, j < n`, `getNeighbours(i, j)`
never contains `(i, j)`, is symmetric over the cells of the grid, and has
size exactly `2(n-1) + (m-1)(k-1)` — a number depending only on the puzzle
parameters, never on any board content. -/
theorem getNeighbours_spec (csp : SudokuCSP) (hm : 0 < csp.m) (hk : 0 < csp.k)
    (hmn : csp.n % csp.m = 0) (hkn : csp.n % csp.k = 0)
    (i j : Nat) (hi : i < csp.n) (hj : j < csp.n) :
    (i, j) ∉ csp.getNeighbours i j ∧
    (∀ a b : Nat, a < csp.n → b < csp.n →
      ((a, b) ∈ csp.getNeighbours i j ↔ (i, j) ∈ csp.getNeighbours a b)) ∧
    (csp.getNeighbours i j).card = 2 * (csp.n - 1) + (csp.m - 1) * (csp.k - 1) := by
  refine ⟨Finset.not_mem_erase _ _, ?_, getNeighbours_card hm hk hmn hkn hi hj⟩
  intro a b ha hb
  rw [mem_getNeighbours hm hk hmn hkn hi hj, mem_getNeighbours hm hk hmn hkn ha hb]
  constructor
  · rintro ⟨hne, _, _, hrel⟩
    refine ⟨by simp_all [Ne, Prod.ext_iff]; tauto, hi, hj, ?_⟩
    rcases hrel with h | h | ⟨h1, h2⟩
    · exact Or.inl h.symm
    · exact Or.inr (Or.inl h.symm)
    · exact Or.inr (Or.inr ⟨h1.symm, h2.symm⟩)
  · rintro ⟨hne, _, _, hrel⟩
    refine ⟨by simp_all [Ne, Prod.ext_iff]; tauto, ha, hb, ?_⟩
    rcases hrel with h | h | ⟨h1, h2⟩
    · exact Or.inl h.symm
    · exact Or.inr (Or.inl h.symm)
    · exact Or.inr (Or.inr ⟨h1.symm, h2.symm⟩)

theorem getNeighbours_spec_witness :
    (0 < (SudokuCSP.init 4 2 2 none).m ∧ 0 < (SudokuCSP.init 4 2 2 none).k ∧
      (SudokuCSP.init 4 2 2 none).n % (SudokuCSP.init 4 2 2 none).m = 0 ∧
      (SudokuCSP.init 4 2 2 none).n % (SudokuCSP.init 4 2 2 none).k = 0 ∧
      1 < (SudokuCSP.init 4 2 2 none).n ∧ 2 < (SudokuCSP.init 4 2 2 none).n) ∧
    ((1, 2) ∉ (SudokuCSP.init 4 2 2 none).getNeighbours 1 2 ∧
      (∀ a b : Nat, a < (SudokuCSP.init 4 2 2 none).n → b < (SudokuCSP.init 4 2 2 none).n →
        ((a, b) ∈ (SudokuCSP.init 4 2 2 none).getNeighbours 1 2 ↔
          (1, 2) ∈ (SudokuCSP.init 4 2 2 none).getNeighbours a b)) ∧
      ((SudokuCSP.init 4 2 2 none).getNeighbours 1 2).card =
        2 * ((SudokuCSP.init 4 2 2 none).n - 1) +
          ((SudokuCSP.init 4 2 2 none).m - 1) * ((SudokuCSP.init 4 2 2 none).k - 1)) :=
  ⟨by decide,
    getNeighbours_spec (SudokuCSP.init 4 2 2 none) (by decide) (by decide) (by decide) (by decide)
      1 2 (by decide) (by decide)⟩

theorem checkVal_false_iff (csp : SudokuCSP) (b : Board) (i j : Nat) :
    checkVal csp b i j = false ↔
      ∃ c ∈ csp.getNeighbours i j, getCell b c.1 c.2 = getCell b i j := by
  unfold checkVal SudokuCSP.neighbourValues
  rw [decide_eq_false_iff_not, not_not, Finset.mem_image]

theorem row_mem_getNeighbours {csp : SudokuCSP} {i j1 j2 : Nat} (hj2 : j2 < csp.n)
    (hne : j2 ≠ j1) : (i, j2) ∈ csp.getNeighbours i j1 := by
  unfold SudokuCSP.getNeighbours neighbourCells
  rw [Finset.mem_erase]
  refine ⟨by simp [Prod.ext_iff, hne], ?_⟩
  apply Finset.mem_union_left
  apply Finset.mem_union_left
  simp only [Finset.mem_product, Finset.mem_singleton, Finset.mem_range]
  exact ⟨by trivial, hj2⟩

/-- **C8**: `isSatisfiable` returns `false` with the engine unchanged when
no initial board is present; otherwise it increments the check counter
exactly once, and returns `false` exactly when some pre-filled cell of the
initial board shares its value with a pre-filled neighbour — in particular
whenever two pre-filled cells of one row share a value. -/
theorem isSatisfiable_spec (csp : SudokuCSP) :
    (csp.initialBoard = none → csp.isSatisfiable = (false, csp)) ∧
    (∀ ib : Board, csp.initialBoard = some ib →
      (csp.isSatisfiable).2.checks = csp.checks + 1 ∧
      ((csp.isSatisfiable).1 = false ↔
        ∃ i < csp.n, ∃ j < csp.n, getCell ib i j ≠ -1 ∧
          ∃ c ∈ csp.getNeighbours i j,
            getCell ib c.1 c.2 ≠ -1 ∧ getCell ib c.1 c.2 = getCell ib i j) ∧
      (∀ i j1 j2 : Nat, i < csp.n → j1 < csp.n → j2 < csp.n → j1 ≠ j2 →
        getCell ib i j1 ≠ -1 → getCell ib i j2 ≠ -1 →
        getCell ib i j1 = getCell ib i j2 → (csp.isSatisfiable).1 = false)) := by
  constructor
  · intro h
    simp only [SudokuCSP.isSatisfiable, h]
  · intro ib hib
    have hS : csp.isSatisfiable =
        (decide (∀ i ∈ List.range csp.n, ∀ j ∈ List.range csp.n,
            getCell ib i j ≠ -1 → checkVal csp ib i j = true),
          { csp with checks := csp.checks + 1 }) := by
      simp only [SudokuCSP.isSatisfiable, hib]
    refine ⟨by rw [hS], ?_, ?_⟩
    · rw [hS]
      simp only [decide_eq_false_iff_not, List.mem_range]
      push_neg
      constructor
      · rintro ⟨i, hi, j, hj, hfill, hbad⟩
        have hfalse : checkVal csp ib i j = false := by
          cases h2 : checkVal csp ib i j
          · rfl
          · exact absurd h2 hbad
        obtain ⟨c, hc, hv⟩ := (checkVal_false_iff csp ib i j).mp hfalse
        exact ⟨i, hi, j, hj, hfill, c, hc, by rw [hv]; exact hfill, hv⟩
      · rintro ⟨i, hi, j, hj, hfill, c, hc, _, hv⟩
        refine ⟨i, hi, j, hj, hfill, ?_⟩
        rw [(checkVal_false_iff csp ib i j).mpr ⟨c, hc, hv⟩]
        decide
    · intro i j1 j2 hi hj1 hj2 hne hf1 hf2 heq
      rw [hS]
      simp only [decide_eq_false_iff_not, List.mem_range]
      push_neg
      refine ⟨i, hi, j1, hj1, hf1, ?_⟩
      rw [(checkVal_false_iff csp ib i j1).mpr ⟨(i, j2), row_mem_getNeighbours hj2
        (fun h => hne (h ▸ rfl)), heq.symm⟩]
      decide

theorem isSatisfiable_spec_witness :
    ((SudokuCSP.init 2 1 2 none).initialBoard = none ∧
      (SudokuCSP.init 2 1 2 none).isSatisfiable = (false, SudokuCSP.init 2 1 2 none)) ∧
    ((SudokuCSP.init 2 1 2 (some [[1, 1], [-1, -1]])).initialBoard =
        some [[1, 1], [-1, -1]] ∧
      ((SudokuCSP.init 2 1 2 (some [[1, 1], [-1, -1]])).isSatisfiable).2.checks =
        (SudokuCSP.init 2 1 2 (some [[1, 1], [-1, -1]])).checks + 1 ∧
      ((SudokuCSP.init 2 1 2 (some [[1, 1], [-1, -1]])).isSatisfiable).1 = false) :=
  ⟨⟨by decide, (isSatisfiable_spec (SudokuCSP.init 2 1 2 none)).1 (by decide)⟩,
    by decide,
    ((isSatisfiable_spec (SudokuCSP.init 2 1 2 (some [[1, 1], [-1, -1]]))).2
      [[1, 1], [-1, -1]] (by decide)).1,
    ((isSatisfiable_spec (SudokuCSP.init 2 1 2 (some [[1, 1], [-1, -1]]))).2
      [[1, 1], [-1, -1]] (by decide)).2.2 0 0 1 (by decide) (by decide) (by decide)
      (by decide) (by decide) (by decide) (by decide)⟩

theorem msortAsc_coe (m : Multiset Int) : ((msortAsc m : List Int) : Multiset Int) = m := by
  refine Quot.inductionOn m (fun l => ?_)
  exact Quot.sound (List.perm_insertionSort _ l)

theorem ascList_coe (s : Finset Int) : ((ascList s : List Int) : Multiset Int) = s.val :=
  msortAsc_coe s.val

theorem mem_ascList {s : Finset Int} {v : Int} : v ∈ ascList s ↔ v ∈ s := by
  have h := ascList_coe s
  constructor
  · intro hv
    have : v ∈ ((ascList s : List Int) : Multiset Int) := by simpa using hv
    rw [h] at this
    exact this
  · intro hv
    have : v ∈ s.val := hv
    rw [← h] at this
    simpa using this

theorem ascList_nodup (s : Finset Int) : (ascList s).Nodup := by
  have h := ascList_coe s
  have h2 : Multiset.Nodup ((ascList s : List Int) : Multiset Int) := by
    rw [h]
    exact s.nodup
  simpa using h2

/-- The ordering the claim (C2) asserts for `getLCVList`: strictly
descending `lcvSum`, with ties broken in ascending value order. -/
def specLCVOrderAsc (csp : SudokuCSP) (b : Board) (i j : Nat) (l : List Int) : Prop :=
  l.Pairwise fun v w => lcvSum csp b i j w < lcvSum csp b i j v ∨
    (lcvSum csp b i j v = lcvSum csp b i j w ∧ v < w)

/-- **C2 (counterexample)**: on the empty 2-by-2 board (n=2, m=1, k=2) all
legal values of cell `(0, 0)` have the same `lcvSum`, and `getLCVList`
returns them in *descending* value order `[2, 1]`, so the tie-breaking
order the claim asserts (ascending values on tied sums) is violated. -/
theorem getLCVList_tie_order_counterexample :
    (SudokuCSP.init 2 1 2 none).getLCVList [[-1, -1], [-1, -1]] 0 0 = [2, 1] ∧
    lcvSum (SudokuCSP.init 2 1 2 none) [[-1, -1], [-1, -1]] 0 0 1 =
      lcvSum (SudokuCSP.init 2 1 2 none) [[-1, -1], [-1, -1]] 0 0 2 ∧
    ¬ specLCVOrderAsc (SudokuCSP.init 2 1 2 none) [[-1, -1], [-1, -1]] 0 0
        ((SudokuCSP.init 2 1 2 none).getLCVList [[-1, -1], [-1, -1]] 0 0) := by
  refine ⟨by decide, by decide, ?_⟩
  intro h
  rw [(by decide : (SudokuCSP.init 2 1 2 none).getLCVList [[-1, -1], [-1, -1]] 0 0 = [2, 1])] at h
  have h2 := List.rel_of_pairwise_cons h (List.mem_singleton.mpr rfl)
  revert h2
  decide

/-- **C2 (amended)**: `getLCVList(board, i, j)` returns every legal value
of `(i, j)` exactly once (no duplicates, no omissions), sorted in strictly
descending order of `lcvSum`; values whose sums tie appear in *descending*
value order (Python's `sort(reverse=True)` on `(sum, value)` pairs reverses
the value order on ties as well). -/
theorem getLCVList_order (csp : SudokuCSP) (b : Board) (i j : Nat) :
    (csp.getLCVList b i j).Nodup ∧
    (∀ v : Int, v ∈ csp.getLCVList b i j ↔ v ∈ csp.getLegalValues b i j) ∧
    (csp.getLCVList b i j).Pairwise (fun v w =>
      lcvSum csp b i j w < lcvSum csp b i j v ∨
        (lcvSum csp b i j v = lcvSum csp b i j w ∧ w < v)) := by
  unfold SudokuCSP.getLCVList
  set legal := csp.getLegalValues b i j with hlegal
  set pairs := (ascList legal).map fun v => (lcvSum csp b i j v, v) with hpairs
  have hperm : (List.insertionSort lcvGE pairs).Perm pairs := List.perm_insertionSort _ _
  have hvalsperm : ((List.insertionSort lcvGE pairs).map Prod.snd).Perm
      (pairs.map Prod.snd) :=
    hperm.map _
  have hpairsvals : pairs.map Prod.snd = ascList legal := by
    rw [hpairs, List.map_map]
    exact List.map_id _
  have hvalsnodup : (pairs.map Prod.snd).Nodup := by
    rw [hpairsvals]
    exact ascList_nodup legal
  have hshape : ∀ p ∈ pairs, p = (lcvSum csp b i j p.2, p.2) := by
    intro p hp
    rw [hpairs] at hp
    obtain ⟨v, _, rfl⟩ := List.mem_map.mp hp
    rfl
  refine ⟨?_, ?_, ?_⟩
  · exact hvalsperm.nodup_iff.mpr hvalsnodup
  · intro v
    rw [hvalsperm.mem_iff, hpairsvals, mem_ascList]
  · have hsorted : (List.insertionSort lcvGE pairs).Pairwise lcvGE :=
      List.sorted_insertionSort lcvGE pairs
    have hnodup : (List.insertionSort lcvGE pairs).Nodup := by
      refine hperm.nodup_iff.mpr ?_
      exact List.Nodup.of_map _ hvalsnodup
    have hshape2 : ∀ p ∈ List.insertionSort lcvGE pairs, p = (lcvSum csp b i j p.2, p.2) :=
      fun p hp => hshape p (hperm.mem_iff.mp hp)
    rw [List.pairwise_map]
    refine (hsorted.and hnodup).imp_of_mem ?_
    intro p q hp hq ⟨hge, hne⟩
    have hps := hshape2 p hp
    have hqs := hshape2 q hq
    rcases hge with hlt | ⟨heq, hle⟩
    · left
      rw [hps, hqs] at hlt ⊢
      exact hlt
    · right
      have hvne : q.2 ≠ p.2 := by
        intro hv
        apply hne
        rw [hps, hqs, hv]
      constructor
      · rw [hps, hqs] at heq ⊢
        exact heq.symm
      · exact lt_of_le_of_ne hle hvne

theorem getD_set_ne {α : Type} (l : List α) {i a : Nat} (x : α) (d : α) (h : i ≠ a) :
    (l.set i x).getD a d = l.getD a d := by
  simp [List.getD_eq_getElem?_getD, List.getElem?_set_ne h]

theorem getD_set_self {α : Type} (l : List α) {i : Nat} (x : α) (d : α) (h : i < l.length) :
    (l.set i x).getD i d = x := by
  simp [List.getD_eq_getElem?_getD, List.getElem?_set_self h]

theorem getDomG_ranges {rd : List (List (Finset Int))} {i j : Nat}
    (h : getDomG rd i j ≠ ∅) : i < rd.length ∧ j < (rd.getD i []).length := by
  by_cases hi : i < rd.length
  · refine ⟨hi, ?_⟩
    by_cases hj : j < (rd.getD i []).length
    · exact hj
    · refine absurd ?_ h
      show (rd.getD i []).getD j ∅ = ∅
      exact List.getD_eq_default _ _ (by omega)
  · refine absurd ?_ h
    show (rd.getD i []).getD j ∅ = ∅
    have he : rd.getD i [] = ([] : List (Finset Int)) :=
      List.getD_eq_default _ _ (by omega : rd.length ≤ i)
    rw [he]
    rfl

theorem setDomG_out {rd : List (List (Finset Int))} {i j : Nat} {s : Finset Int}
    (h : ¬(i < rd.length ∧ j < (rd.getD i []).length)) : setDomG rd i j s = rd := by
  by_cases hi : i < rd.length
  · have hj : (rd.getD i []).length ≤ j := by omega
    unfold setDomG
    rw [List.set_eq_of_length_le hj]
    exact set_getD_self _ _ _ hi
  · unfold setDomG
    exact List.set_eq_of_length_le (by omega)

theorem getDomG_setDomG_ne {rd : List (List (Finset Int))} {i j a b : Nat}
    {s : Finset Int} (h : (a, b) ≠ (i, j)) :
    getDomG (setDomG rd i j s) a b = getDomG rd a b := by
  by_cases hia : i = a
  · subst hia
    have hjb : j ≠ b := fun hjb => h (by rw [hjb])
    by_cases hi : i < rd.length
    · show ((rd.set i _).getD i []).getD b ∅ = _
      rw [getD_set_self _ _ _ hi, getD_set_ne _ _ _ hjb]
      rfl
    · unfold setDomG
      rw [List.set_eq_of_length_le (by omega)]
  · show ((rd.set i _).getD a []).getD b ∅ = _
    rw [getD_set_ne _ _ _ hia]
    rfl

theorem getDomG_setDomG_self {rd : List (List (Finset Int))} {i j : Nat} {s : Finset Int}
    (hi : i < rd.length) (hj : j < (rd.getD i []).length) :
    getDomG (setDomG rd i j s) i j = s := by
  show ((rd.set i _).getD i []).getD j ∅ = s
  rw [getD_set_self _ _ _ hi, getD_set_self _ _ _ (by simpa using hj)]

theorem getDomG_setDomG_subset {rd : List (List (Finset Int))} {i j a b : Nat}
    {s : Finset Int} (hsub : s ⊆ getDomG rd i j) :
    getDomG (setDomG rd i j s) a b ⊆ getDomG rd a b := by
  by_cases hab : (a, b) = (i, j)
  · have ha : a = i := congrArg Prod.fst hab
    have hb : b = j := congrArg Prod.snd hab
    subst ha
    subst hb
    by_cases hr : a < rd.length ∧ b < (rd.getD a []).length
    · rw [getDomG_setDomG_self hr.1 hr.2]
      exact hsub
    · rw [setDomG_out hr]
  · rw [getDomG_setDomG_ne hab]

theorem totalSize_setDomG_lt {rd : List (List (Finset Int))} {i j : Nat} {s : Finset Int}
    (hi : i < rd.length) (hj : j < (rd.getD i []).length)
    (hsub : s ⊆ getDomG rd i j) (hne : s ≠ getDomG rd i j) :
    totalSize (setDomG rd i j s) < totalSize rd := by
  have hcard : s.card < (getDomG rd i j).card :=
    Finset.card_lt_card (ssubset_of_ne_of_subset hne hsub)
  have hrowmap : ((rd.getD i []).set j s).map Finset.card =
      ((rd.getD i []).map Finset.card).set j s.card := List.map_set
  have hinner : (((rd.getD i []).set j s).map Finset.card).sum +
      ((rd.getD i []).map Finset.card).getD j 0 =
      ((rd.getD i []).map Finset.card).sum + s.card := by
    rw [hrowmap]
    exact sum_set_add _ _ _ (by simpa using hj)
  have hgetDj : ((rd.getD i []).map Finset.card).getD j 0 = (getDomG rd i j).card := by
    have := @List.getD_map (Finset Int) Nat (rd.getD i []) ∅ j Finset.card
    simpa [getDomG] using this
  have houter : (setDomG rd i j s).map (fun r => (r.map Finset.card).sum) =
      (rd.map (fun r => (r.map Finset.card).sum)).set i
        ((((rd.getD i []).set j s)).map Finset.card).sum := by
    unfold setDomG
    rw [List.map_set]
  have htot : totalSize (setDomG rd i j s) +
      (rd.map (fun r => (r.map Finset.card).sum)).getD i 0 =
      totalSize rd + ((((rd.getD i []).set j s)).map Finset.card).sum := by
    unfold totalSize
    rw [houter]
    exact sum_set_add _ _ _ (by simpa using hi)
  have hgetDi : (rd.map (fun r => (r.map Finset.card).sum)).getD i 0 =
      ((rd.getD i []).map Finset.card).sum := by
    have := @List.getD_map (List (Finset Int)) Nat rd []
      i (fun r => (r.map Finset.card).sum)
    simpa [getDomG] using this
  omega

theorem length_flatMap_const {α β : Type} (l : List α) (f : α → List β) (c : Nat)
    (h : ∀ a ∈ l, (f a).length = c) : (l.flatMap f).length = l.length * c := by
  induction l with
  | nil => simp
  | cons a t ih =>
      rw [List.flatMap_cons, List.length_append, ih (fun x hx => h x (List.mem_cons_of_mem _ hx)),
        h a (List.mem_cons_self _ _), List.length_cons]
      ring

theorem rowMajorCells_length (n : Nat) : (rowMajorCells n).length = n * n := by
  unfold rowMajorCells
  rw [length_flatMap_const _ _ n (fun a ha => by rw [List.length_map, List.length_range]),
    List.length_range]

theorem neighbourListP_length_le (n m k i j : Nat) :
    (neighbourListP n m k i j).length ≤ n * n := by
  unfold neighbourListP
  calc (List.filter _ (rowMajorCells n)).length ≤ (rowMajorCells n).length :=
        List.length_filter_le _ _
    _ = n * n := rowMajorCells_length n

theorem acLoopFuel_cons_no_removal {n m k fuel : Nat} {x y : Nat × Nat}
    {rest : List ((Nat × Nat) × (Nat × Nat))} {rd : List (List (Finset Int))}
    (hd : (getDomG rd x.1 x.2).filter
        (fun xv => ¬((getDomG rd y.1 y.2).erase xv).card = 0) = getDomG rd x.1 x.2) :
    acLoopFuel n m k (fuel + 1) ((x, y) :: rest) rd = acLoopFuel n m k fuel rest rd := by
  simp only [acLoopFuel]
  rw [if_pos hd]

theorem acLoopFuel_cons_removal {n m k fuel : Nat} {x y : Nat × Nat}
    {rest : List ((Nat × Nat) × (Nat × Nat))} {rd : List (List (Finset Int))}
    (hd : ¬((getDomG rd x.1 x.2).filter
        (fun xv => ¬((getDomG rd y.1 y.2).erase xv).card = 0) = getDomG rd x.1 x.2)) :
    acLoopFuel n m k (fuel + 1) ((x, y) :: rest) rd =
      acLoopFuel n m k fuel
        (rest ++ (neighbourListP n m k x.1 x.2).map fun nb => (x, nb))
        (setDomG rd x.1 x.2 ((getDomG rd x.1 x.2).filter
          (fun xv => ¬((getDomG rd y.1 y.2).erase xv).card = 0))) := by
  simp only [acLoopFuel]
  rw [if_neg hd]

theorem phi_cons (n : Nat) (a : (Nat × Nat) × (Nat × Nat))
    (rest : List ((Nat × Nat) × (Nat × Nat))) (rd : List (List (Finset Int))) :
    phi n (a :: rest) rd = phi n rest rd + 1 := by
  unfold phi
  rw [List.length_cons]
  omega

theorem phi_step_removal {n m k : Nat} {x y : Nat × Nat}
    {rest : List ((Nat × Nat) × (Nat × Nat))} {rd : List (List (Finset Int))}
    (hd : ¬((getDomG rd x.1 x.2).filter
        (fun xv => ¬((getDomG rd y.1 y.2).erase xv).card = 0) = getDomG rd x.1 x.2)) :
    phi n (rest ++ (neighbourListP n m k x.1 x.2).map fun nb => (x, nb))
        (setDomG rd x.1 x.2 ((getDomG rd x.1 x.2).filter
          (fun xv => ¬((getDomG rd y.1 y.2).erase xv).card = 0))) + 2 ≤
      phi n ((x, y) :: rest) rd := by
  set dx2 := (getDomG rd x.1 x.2).filter
    (fun xv => ¬((getDomG rd y.1 y.2).erase xv).card = 0) with hdx2
  have hsub : dx2 ⊆ getDomG rd x.1 x.2 := Finset.filter_subset _ _
  have hdne : getDomG rd x.1 x.2 ≠ ∅ := by
    intro h
    apply hd
    rw [hdx2, h]
    exact Finset.filter_empty _
  have hranges := getDomG_ranges hdne
  have hlt : totalSize (setDomG rd x.1 x.2 dx2) < totalSize rd :=
    totalSize_setDomG_lt hranges.1 hranges.2 hsub hd
  have hlen : ((neighbourListP n m k x.1 x.2).map fun nb => (x, nb)).length ≤ n * n := by
    rw [List.length_map]
    exact neighbourListP_length_le n m k x.1 x.2
  have hmul : totalSize (setDomG rd x.1 x.2 dx2) * (n * n + 1) + (n * n + 1) ≤
      totalSize rd * (n * n + 1) := by
    have h1 : totalSize (setDomG rd x.1 x.2 dx2) + 1 ≤ totalSize rd := hlt
    calc totalSize (setDomG rd x.1 x.2 dx2) * (n * n + 1) + (n * n + 1)
        = (totalSize (setDomG rd x.1 x.2 dx2) + 1) * (n * n + 1) := by ring
      _ ≤ totalSize rd * (n * n + 1) := Nat.mul_le_mul_right _ h1
  unfold phi
  rw [List.length_append, List.length_cons]
  omega

theorem acLoopFuel_stable (n m k : Nat) :
    ∀ (fuel : Nat) (arcs : List ((Nat × Nat) × (Nat × Nat)))
      (rd : List (List (Finset Int))), phi n arcs rd < fuel →
      ∀ g : Nat, phi n arcs rd < g →
      acLoopFuel n m k fuel arcs rd = acLoopFuel n m k g arcs rd := by
  intro fuel
  induction fuel with
  | zero => intro arcs rd h; exact absurd h (Nat.not_lt_zero _)
  | succ fuel ih =>
      intro arcs rd hf g hg
      cases g with
      | zero => exact absurd hg (Nat.not_lt_zero _)
      | succ g =>
          cases arcs with
          | nil => rfl
          | cons arc rest =>
              obtain ⟨x, y⟩ := arc
              by_cases hd : (getDomG rd x.1 x.2).filter
                  (fun xv => ¬((getDomG rd y.1 y.2).erase xv).card = 0) =
                    getDomG rd x.1 x.2
              · rw [acLoopFuel_cons_no_removal hd, acLoopFuel_cons_no_removal hd]
                have hp := phi_cons n (x, y) rest rd
                exact ih rest rd (by omega) g (by omega)
              · rw [acLoopFuel_cons_removal hd, acLoopFuel_cons_removal hd]
                have hp := @phi_step_removal n m k x y rest rd hd
                have hp2 := phi_cons n (x, y) rest rd
                exact ih _ _ (by omega) g (by omega)

/-- **C7**: the AC-3 worklist loop of `computeReducedDomains` terminates
for every puzzle and initial worklist: an arc is re-enqueued only when some
cell's domain strictly shrank, domains never grow and are bounded below by
the empty set, so `phi` — worklist length plus total domain size scaled by
the maximal arc fan-out — strictly decreases at every iteration.  Running
the loop with any fuel beyond `phi` gives the same result as fuel
`phi + 1`: the loop has reached its natural exit by then. -/
theorem acLoop_terminates (n m k : Nat) (arcs : List ((Nat × Nat) × (Nat × Nat)))
    (rd : List (List (Finset Int))) (fuel : Nat) (h : phi n arcs rd < fuel) :
    acLoopFuel n m k fuel arcs rd = acLoopFuel n m k (phi n arcs rd + 1) arcs rd :=
  acLoopFuel_stable n m k fuel arcs rd h _ (Nat.lt_succ_self _)

theorem acLoop_terminates_witness :
    phi 2 (initialArcs 2 1 2 [[1, -1], [-1, -1]])
        (initialDomains 2 (Finset.Icc 1 2) [[1, -1], [-1, -1]]) < 60 ∧
      acLoopFuel 2 1 2 60 (initialArcs 2 1 2 [[1, -1], [-1, -1]])
          (initialDomains 2 (Finset.Icc 1 2) [[1, -1], [-1, -1]]) =
        acLoopFuel 2 1 2
          (phi 2 (initialArcs 2 1 2 [[1, -1], [-1, -1]])
            (initialDomains 2 (Finset.Icc 1 2) [[1, -1], [-1, -1]]) + 1)
          (initialArcs 2 1 2 [[1, -1], [-1, -1]])
          (initialDomains 2 (Finset.Icc 1 2) [[1, -1], [-1, -1]]) :=
  ⟨by decide,
    acLoop_terminates 2 1 2 (initialArcs 2 1 2 [[1, -1], [-1, -1]])
      (initialDomains 2 (Finset.Icc 1 2) [[1, -1], [-1, -1]]) 60 (by decide)⟩

theorem acLoopFuel_subset (n m k : Nat) :
    ∀ (fuel : Nat) (arcs : List ((Nat × Nat) × (Nat × Nat)))
      (rd : List (List (Finset Int))) (a b : Nat),
      getDomG (acLoopFuel n m k fuel arcs rd) a b ⊆ getDomG rd a b := by
  intro fuel
  induction fuel with
  | zero => intro arcs rd a b; exact Finset.Subset.refl _
  | succ fuel ih =>
      intro arcs rd a b
      cases arcs with
      | nil => exact Finset.Subset.refl _
      | cons arc rest =>
          obtain ⟨x, y⟩ := arc
          by_cases hd : (getDomG rd x.1 x.2).filter
              (fun xv => ¬((getDomG rd y.1 y.2).erase xv).card = 0) = getDomG rd x.1 x.2
          · rw [acLoopFuel_cons_no_removal hd]
            exact ih rest rd a b
          · rw [acLoopFuel_cons_removal hd]
            exact (ih _ _ a b).trans (getDomG_setDomG_subset (Finset.filter_subset _ _))

theorem acLoopFuel_not_source (n m k : Nat) :
    ∀ (fuel : Nat) (arcs : List ((Nat × Nat) × (Nat × Nat)))
      (rd : List (List (Finset Int))) (c : Nat × Nat),
      (∀ arc ∈ arcs, arc.1 ≠ c) →
      getDomG (acLoopFuel n m k fuel arcs rd) c.1 c.2 = getDomG rd c.1 c.2 := by
  intro fuel
  induction fuel with
  | zero => intro arcs rd c _; rfl
  | succ fuel ih =>
      intro arcs rd c hsrc
      cases arcs with
      | nil => rfl
      | cons arc rest =>
          obtain ⟨x, y⟩ := arc
          have hx : x ≠ c := hsrc (x, y) (List.mem_cons_self _ _)
          by_cases hd : (getDomG rd x.1 x.2).filter
              (fun xv => ¬((getDomG rd y.1 y.2).erase xv).card = 0) = getDomG rd x.1 x.2
          · rw [acLoopFuel_cons_no_removal hd]
            exact ih rest rd c (fun a ha => hsrc a (List.mem_cons_of_mem _ ha))
          · rw [acLoopFuel_cons_removal hd]
            have hsrc2 : ∀ arc ∈ rest ++ (neighbourListP n m k x.1 x.2).map
                (fun nb => (x, nb)), arc.1 ≠ c := by
              intro a ha
              rcases List.mem_append.mp ha with h1 | h1
              · exact hsrc a (List.mem_cons_of_mem _ h1)
              · obtain ⟨nb, _, rfl⟩ := List.mem_map.mp h1
                exact hx
            rw [ih _ _ c hsrc2]
            exact getDomG_setDomG_ne (fun he => hx (by
              have : c = x := by
                have h1 : c.1 = x.1 := congrArg Prod.fst he
                have h2 : c.2 = x.2 := congrArg Prod.snd he
                exact Prod.ext h1 h2
              rw [this]))

theorem getDomG_initialDomains (n : Nat) (dom : Finset Int) (ib : Board) {i j : Nat}
    (hi : i < n) (hj : j < n) :
    getDomG (initialDomains n dom ib) i j =
      if getCell ib i j = -1 then dom else {getCell ib i j} := by
  have hrow : (initialDomains n dom ib).getD i [] =
      (List.range n).map fun j2 => if getCell ib i j2 = -1 then dom else {getCell ib i j2} := by
    unfold initialDomains
    rw [List.getD_eq_getElem _ _ (by simpa using hi), List.getElem_map, List.getElem_range]
  unfold getDomG
  rw [hrow, List.getD_eq_getElem _ _ (by simpa using hj), List.getElem_map,
    List.getElem_range]

theorem initialArcs_src {n m k : Nat} {ib : Board} {arc : (Nat × Nat) × (Nat × Nat)}
    (h : arc ∈ initialArcs n m k ib) : getCell ib arc.1.1 arc.1.2 = -1 := by
  unfold initialArcs at h
  rw [List.mem_flatMap] at h
  obtain ⟨c, hc, harc⟩ := h
  rw [List.mem_filter] at hc
  obtain ⟨nb, _, rfl⟩ := List.mem_map.mp harc
  exact of_decide_eq_true hc.2

/-- **C6**: after `computeReducedDomains` runs on an engine holding an
initial board (whose given values lie in the engine's domain, per the data
model), every cell's reduced domain is a subset of the full domain; every
pre-filled cell has the singleton reduced domain of its given value; and a
second run yields exactly the same reduced domains as the first
(idempotence — the method recomputes from `n, m, k`, `domain` and the
initial board only). -/
theorem computeReducedDomains_spec (csp : SudokuCSP) (ib : Board)
    (hib : csp.initialBoard = some ib)
    (hdom : ∀ i ∈ List.range csp.n, ∀ j ∈ List.range csp.n,
      getCell ib i j ≠ -1 → getCell ib i j ∈ csp.domain) :
    csp.computeReducedDomains.reducedDomains =
      some (reducedGrid csp.n csp.m csp.k csp.domain ib) ∧
    (∀ i j : Nat, i < csp.n → j < csp.n →
      getDomG (reducedGrid csp.n csp.m csp.k csp.domain ib) i j ⊆ csp.domain) ∧
    (∀ i j : Nat, i < csp.n → j < csp.n → getCell ib i j ≠ -1 →
      getDomG (reducedGrid csp.n csp.m csp.k csp.domain ib) i j = {getCell ib i j}) ∧
    csp.computeReducedDomains.computeReducedDomains.reducedDomains =
      csp.computeReducedDomains.reducedDomains := by
  refine ⟨?_, ?_, ?_, rfl⟩
  · simp [SudokuCSP.computeReducedDomains, hib]
  · intro i j hi hj
    unfold reducedGrid
    refine (acLoopFuel_subset csp.n csp.m csp.k _ _ _ i j).trans ?_
    rw [getDomG_initialDomains _ _ _ hi hj]
    by_cases hfill : getCell ib i j = -1
    · rw [if_pos hfill]
    · rw [if_neg hfill]
      intro v hv
      rw [Finset.mem_singleton] at hv
      rw [hv]
      exact hdom i (List.mem_range.mpr hi) j (List.mem_range.mpr hj) hfill
  · intro i j hi hj hfill
    unfold reducedGrid
    rw [acLoopFuel_not_source csp.n csp.m csp.k _ _ _ (i, j) ?_]
    · rw [getDomG_initialDomains _ _ _ hi hj, if_neg hfill]
    · intro arc harc heq
      apply hfill
      have := initialArcs_src harc
      rw [heq] at this
      exact this

theorem computeReducedDomains_spec_witness :
    ((SudokuCSP.init 2 1 2 (some [[1, -1], [-1, -1]])).initialBoard =
        some [[1, -1], [-1, -1]] ∧
      (∀ i ∈ List.range (SudokuCSP.init 2 1 2 (some [[1, -1], [-1, -1]])).n,
        ∀ j ∈ List.range (SudokuCSP.init 2 1 2 (some [[1, -1], [-1, -1]])).n,
        getCell [[1, -1], [-1, -1]] i j ≠ -1 →
          getCell [[1, -1], [-1, -1]] i j ∈
            (SudokuCSP.init 2 1 2 (some [[1, -1], [-1, -1]])).domain)) ∧
    ((SudokuCSP.init 2 1 2 (some [[1, -1], [-1, -1]])).computeReducedDomains.reducedDomains =
        some (reducedGrid 2 1 2 (Finset.Icc 1 2) [[1, -1], [-1, -1]]) ∧
      (∀ i j : Nat, i < 2 → j < 2 →
        getDomG (reducedGrid 2 1 2 (Finset.Icc 1 2) [[1, -1], [-1, -1]]) i j ⊆
          Finset.Icc 1 2) ∧
      (∀ i j : Nat, i < 2 → j < 2 → getCell [[1, -1], [-1, -1]] i j ≠ -1 →
        getDomG (reducedGrid 2 1 2 (Finset.Icc 1 2) [[1, -1], [-1, -1]]) i j =
          {getCell [[1, -1], [-1, -1]] i j}) ∧
      (SudokuCSP.init 2 1 2
          (some [[1, -1], [-1, -1]])).computeReducedDomains.computeReducedDomains.reducedDomains =
        (SudokuCSP.init 2 1 2 (some [[1, -1], [-1, -1]])).computeReducedDomains.reducedDomains) :=
  ⟨⟨by decide, by decide⟩,
    computeReducedDomains_spec (SudokuCSP.init 2 1 2 (some [[1, -1], [-1, -1]]))
      [[1, -1], [-1, -1]] (by decide) (by decide)⟩

theorem nodup_range_map_iff {g : Nat → Int} {len : Nat} :
    ((List.range len).map g).Nodup ↔
      ∀ t1 t2 : Nat, t1 < len → t2 < len → t1 ≠ t2 → g t1 ≠ g t2 := by
  rw [List.Nodup, List.pairwise_map, List.pairwise_iff_getElem]
  constructor
  · intro h t1 t2 h1 h2 hne
    rcases Nat.lt_or_ge t1 t2 with hlt | hge
    · have := h t1 t2 (by simpa using h1) (by simpa using h2) hlt
      simpa using this
    · have hlt2 : t2 < t1 := by omega
      have := h t2 t1 (by simpa using h2) (by simpa using h1) hlt2
      simp only [List.getElem_range] at this
      exact fun he => this he.symm
  · intro h i j hi hj hij
    simp only [List.getElem_range]
    exact h i j (by simpa using hi) (by simpa using hj) (Nat.ne_of_lt hij)

theorem rowList_eq {b : Board} {n i : Nat} (hlen : b.length = n)
    (hrows : ∀ row ∈ b, row.length = n) (hi : i < n) :
    rowList b i = (List.range n).map fun j => getCell b i j := by
  have hib : i < b.length := by omega
  have hrl : (b.getD i []).length = n := by
    rw [List.getD_eq_getElem _ _ hib]
    exact hrows _ (List.getElem_mem hib)
  apply List.ext_getElem
  · rw [List.length_map, List.length_range]
    exact hrl
  · intro t h1 h2
    simp only [List.getElem_map, List.getElem_range]
    have := List.getD_eq_getElem (b.getD i []) 0
      (show t < (b.getD i []).length by
        rw [hrl]
        rw [List.length_map, List.length_range] at h2
        exact h2)
    exact this.symm

theorem range'_step_eq (step : Nat) :
    ∀ (q s : Nat), List.range' s q step = (List.range q).map fun t => s + step * t := by
  intro q
  induction q with
  | zero => intro s; rfl
  | succ q ih =>
      intro s
      rw [List.range'_succ, List.range_succ_eq_map, List.map_cons, ih (s + step),
        List.map_map]
      refine congrArg₂ _ (by omega) ?_
      refine List.map_congr_left (fun t ht => ?_)
      show s + step + step * t = s + step * (t + 1)
      ring

theorem mem_stepStarts {n step : Nat} (hstep : 0 < step) (hdvd : step ∣ n) {x : Nat} :
    x ∈ stepStarts n step ↔ ∃ t : Nat, t < n / step ∧ x = step * t := by
  obtain ⟨q, rfl⟩ := hdvd
  have hq : (step * q + step - 1) / step = q := by
    obtain ⟨s2, rfl⟩ : ∃ s2, step = s2 + 1 := ⟨step - 1, by omega⟩
    have h1 : (s2 + 1) * q + (s2 + 1) - 1 = (s2 + 1) * q + s2 := by omega
    rw [h1, Nat.mul_add_div (by omega : 0 < s2 + 1),
      Nat.div_eq_of_lt (by omega : s2 < s2 + 1)]
    omega
  unfold stepStarts
  rw [hq, range'_step_eq]
  rw [Nat.mul_div_cancel_left _ hstep]
  simp only [List.mem_map, List.mem_range]
  constructor
  · rintro ⟨t, ht, rfl⟩
    exact ⟨t, ht, by omega⟩
  · rintro ⟨t, ht, rfl⟩
    exact ⟨t, ht, by omega⟩

theorem subgridList_nodup_iff {csp : SudokuCSP} {b : Board} {bi bj : Nat} :
    (subgridList csp b bi bj).Nodup ↔
      ∀ r1 c1 r2 c2 : Nat, r1 < csp.m → c1 < csp.k → r2 < csp.m → c2 < csp.k →
        (r1, c1) ≠ (r2, c2) →
        getCell b (bi + r1) (bj + c1) ≠ getCell b (bi + r2) (bj + c2) := by
  have hmem : ∀ (si : Nat) (v : Int),
      v ∈ (List.range' bj csp.k).map (fun sj => getCell b si sj) ↔
        ∃ c : Nat, c < csp.k ∧ v = getCell b si (bj + c) := by
    intro si v
    simp only [List.mem_map, List.mem_range']
    constructor
    · rintro ⟨sj, ⟨c, hc, rfl⟩, rfl⟩
      exact ⟨c, hc, by rw [Nat.one_mul]⟩
    · rintro ⟨c, hc, rfl⟩
      exact ⟨bj + c, ⟨c, hc, by rw [Nat.one_mul]⟩, rfl⟩
  unfold subgridList
  rw [List.nodup_flatMap]
  have hinner : (∀ si ∈ List.range' bi csp.m,
      ((List.range' bj csp.k).map fun sj => getCell b si sj).Nodup) ↔
      ∀ r : Nat, r < csp.m → ∀ c1 c2 : Nat, c1 < csp.k → c2 < csp.k → c1 ≠ c2 →
        getCell b (bi + r) (bj + c1) ≠ getCell b (bi + r) (bj + c2) := by
    constructor
    · intro h r hr c1 c2 hc1 hc2 hne
      have hsi : bi + r ∈ List.range' bi csp.m := by
        rw [List.mem_range']
        exact ⟨r, hr, by omega⟩
      have h2 := h _ hsi
      rw [List.range'_eq_map_range, List.map_map] at h2
      have h3 := nodup_range_map_iff.mp h2 c1 c2 hc1 hc2 hne
      simpa using h3
    · intro h si hsi
      rw [List.mem_range'] at hsi
      obtain ⟨r, hr, rfl⟩ := hsi
      rw [List.range'_eq_map_range, List.map_map]
      refine nodup_range_map_iff.mpr (fun c1 c2 hc1 hc2 hne => ?_)
      have := h r hr c1 c2 hc1 hc2 hne
      simpa [Nat.one_mul] using this
  have hdisj : (List.range' bi csp.m).Pairwise
      (Function.onFun List.Disjoint fun si => (List.range' bj csp.k).map
        fun sj => getCell b si sj) ↔
      ∀ r1 r2 : Nat, r1 < csp.m → r2 < csp.m → r1 < r2 →
        ∀ c1 c2 : Nat, c1 < csp.k → c2 < csp.k →
          getCell b (bi + r1) (bj + c1) ≠ getCell b (bi + r2) (bj + c2) := by
    rw [show List.range' bi csp.m = (List.range csp.m).map (bi + ·) from
      List.range'_eq_map_range bi csp.m, List.pairwise_map, List.pairwise_iff_getElem]
    constructor
    · intro h r1 r2 hr1 hr2 hlt c1 c2 hc1 hc2 heq
      have h2 := h r1 r2 (by simpa using hr1) (by simpa using hr2) hlt
      simp only [List.getElem_range, Function.onFun] at h2
      exact h2 ((hmem _ _).mpr ⟨c1, hc1, rfl⟩) ((hmem _ _).mpr ⟨c2, hc2, heq⟩)
    · intro h i1 i2 hi1 hi2 hlt
      simp only [List.getElem_range, Function.onFun]
      intro v hv1 hv2
      obtain ⟨c1, hc1, rfl⟩ := (hmem _ _).mp hv1
      obtain ⟨c2, hc2, heq⟩ := (hmem _ _).mp hv2
      exact h i1 i2 (by simpa using hi1) (by simpa using hi2) hlt c1 c2 hc1 hc2 heq
  rw [hinner, hdisj]
  constructor
  · rintro ⟨hrow, hcross⟩ r1 c1 r2 c2 hr1 hc1 hr2 hc2 hne heq
    rcases Nat.lt_trichotomy r1 r2 with hlt | hreq | hgt
    · exact hcross r1 r2 hr1 hr2 hlt c1 c2 hc1 hc2 heq
    · subst hreq
      have hcne : c1 ≠ c2 := fun hc => hne (by rw [hc])
      exact hrow r1 hr1 c1 c2 hc1 hc2 hcne heq
    · exact hcross r2 r1 hr2 hr1 hgt c2 c1 hc2 hc1 heq.symm
  · intro h
    constructor
    · intro r hr c1 c2 hc1 hc2 hne
      exact h r c1 r c2 hr hc1 hr hc2 (fun hp => hne (congrArg Prod.snd hp))
    · intro r1 r2 hr1 hr2 hlt c1 c2 hc1 hc2
      exact h r1 c1 r2 c2 hr1 hc1 hr2 hc2
        (fun hp => absurd (congrArg Prod.fst hp) (by simpa using Nat.ne_of_lt hlt))

/-- The claim's specification-side reading of full-board consistency:
every row, every column and every `m`-by-`k` sub-grid of the `n`-by-`n`
board holds pairwise-distinct values. -/
def specNoDuplicates (csp : SudokuCSP) (b : Board) : Prop :=
  (∀ i j1 j2 : Nat, i < csp.n → j1 < csp.n → j2 < csp.n → j1 ≠ j2 →
    getCell b i j1 ≠ getCell b i j2) ∧
  (∀ j i1 i2 : Nat, j < csp.n → i1 < csp.n → i2 < csp.n → i1 ≠ i2 →
    getCell b i1 j ≠ getCell b i2 j) ∧
  (∀ t1 t2 : Nat, t1 < csp.n / csp.m → t2 < csp.n / csp.k →
    ∀ r1 c1 r2 c2 : Nat, r1 < csp.m → c1 < csp.k → r2 < csp.m → c2 < csp.k →
      (r1, c1) ≠ (r2, c2) →
      getCell b (csp.m * t1 + r1) (csp.k * t2 + c1) ≠
        getCell b (csp.m * t1 + r2) (csp.k * t2 + c2))

theorem checkAllVal_iff_spec {csp : SudokuCSP} {b : Board}
    (hm : 0 < csp.m) (hk : 0 < csp.k)
    (hmn : csp.n % csp.m = 0) (hkn : csp.n % csp.k = 0)
    (hlen : b.length = csp.n) (hrows : ∀ row ∈ b, row.length = csp.n) :
    checkAllVal csp b = true ↔ specNoDuplicates csp b := by
  unfold checkAllVal specNoDuplicates
  rw [decide_eq_true_eq]
  constructor
  · rintro ⟨hrc, hg⟩
    refine ⟨?_, ?_, ?_⟩
    · intro i j1 j2 hi hj1 hj2 hne
      have h := (hrc i (List.mem_range.mpr hi)).1
      rw [rowList_eq hlen hrows hi] at h
      exact nodup_range_map_iff.mp h j1 j2 hj1 hj2 hne
    · intro j i1 i2 hj hi1 hi2 hne
      have h := (hrc j (List.mem_range.mpr hj)).2
      unfold colList at h
      exact nodup_range_map_iff.mp h i1 i2 hi1 hi2 hne
    · intro t1 t2 ht1 ht2 r1 c1 r2 c2 hr1 hc1 hr2 hc2 hne
      have hbi : csp.m * t1 ∈ stepStarts csp.n csp.m :=
        (mem_stepStarts hm (Nat.dvd_of_mod_eq_zero hmn)).mpr ⟨t1, ht1, rfl⟩
      have hbj : csp.k * t2 ∈ stepStarts csp.n csp.k :=
        (mem_stepStarts hk (Nat.dvd_of_mod_eq_zero hkn)).mpr ⟨t2, ht2, rfl⟩
      have h := hg _ hbi _ hbj
      exact subgridList_nodup_iff.mp h r1 c1 r2 c2 hr1 hc1 hr2 hc2 hne
  · rintro ⟨hrow, hcol, hgrid⟩
    constructor
    · intro i hi
      rw [List.mem_range] at hi
      constructor
      · rw [rowList_eq hlen hrows hi]
        exact nodup_range_map_iff.mpr (fun j1 j2 h1 h2 hne => hrow i j1 j2 hi h1 h2 hne)
      · unfold colList
        exact nodup_range_map_iff.mpr (fun i1 i2 h1 h2 hne => hcol i i1 i2 hi h1 h2 hne)
    · intro bi hbi bj hbj
      obtain ⟨t1, ht1, rfl⟩ := (mem_stepStarts hm (Nat.dvd_of_mod_eq_zero hmn)).mp hbi
      obtain ⟨t2, ht2, rfl⟩ := (mem_stepStarts hk (Nat.dvd_of_mod_eq_zero hkn)).mp hbj
      exact subgridList_nodup_iff.mpr (fun r1 c1 r2 c2 h1 h2 h3 h4 hne =>
        hgrid t1 t2 ht1 ht2 r1 c1 r2 c2 h1 h2 h3 h4 hne)

/-- **C1**: for every `n`-by-`n` board whose cells all hold values (no
unassigned sentinel), `checkAll(board)` returns true if and only if every
row, every column and every `m`-by-`k` sub-grid contains no duplicate
value. -/
theorem checkAll_iff_no_duplicates (csp : SudokuCSP) (b : Board)
    (hm : 0 < csp.m) (hk : 0 < csp.k)
    (hmn : csp.n % csp.m = 0) (hkn : csp.n % csp.k = 0)
    (hlen : b.length = csp.n) (hrows : ∀ row ∈ b, row.length = csp.n)
    (hfull : ∀ i ∈ List.range csp.n, ∀ j ∈ List.range csp.n, getCell b i j ≠ -1) :
    checkAllVal csp b = true ↔ specNoDuplicates csp b :=
  checkAllVal_iff_spec hm hk hmn hkn hlen hrows

theorem checkAll_iff_no_duplicates_witness :
    (checkAllVal (SudokuCSP.init 4 2 2 none)
        [[1, 2, 3, 4], [3, 4, 1, 2], [2, 1, 4, 3], [4, 3, 2, 1]] = true ↔
      specNoDuplicates (SudokuCSP.init 4 2 2 none)
        [[1, 2, 3, 4], [3, 4, 1, 2], [2, 1, 4, 3], [4, 3, 2, 1]]) ∧
    checkAllVal (SudokuCSP.init 4 2 2 none)
      [[1, 2, 3, 4], [3, 4, 1, 2], [2, 1, 4, 3], [4, 3, 2, 1]] = true :=
  ⟨checkAll_iff_no_duplicates (SudokuCSP.init 4 2 2 none)
      [[1, 2, 3, 4], [3, 4, 1, 2], [2, 1, 4, 3], [4, 3, 2, 1]]
      (by decide) (by decide) (by decide) (by decide) (by decide) (by decide) (by decide),
    by decide⟩

theorem getNeighbours_symm_mem {csp : SudokuCSP} (hm : 0 < csp.m) (hk : 0 < csp.k)
    (hmn : csp.n % csp.m = 0) (hkn : csp.n % csp.k = 0) {i j a b : Nat}
    (hi : i < csp.n) (hj : j < csp.n) (h : (a, b) ∈ csp.getNeighbours i j) :
    (i, j) ∈ csp.getNeighbours a b := by
  rw [mem_getNeighbours hm hk hmn hkn hi hj] at h
  obtain ⟨hne, ha, hb, hrel⟩ := h
  rw [mem_getNeighbours hm hk hmn hkn ha hb]
  refine ⟨fun he => hne ?_, hi, hj, ?_⟩
  · have h1 : i = a := congrArg Prod.fst he
    have h2 : j = b := congrArg Prod.snd he
    rw [h1, h2]
  · rcases hrel with h1 | h1 | ⟨h1, h2⟩
    · exact Or.inl h1.symm
    · exact Or.inr (Or.inl h1.symm)
    · exact Or.inr (Or.inr ⟨h1.symm, h2.symm⟩)

theorem mem_conflictingCells {csp : SudokuCSP} {b ib : Board}
    (hib : csp.initialBoard = some ib) {p : Nat × Nat} (hp1 : p.1 < csp.n)
    (hp2 : p.2 < csp.n) (hopen : getCell ib p.1 p.2 = -1)
    (hfail : checkVal csp b p.1 p.2 = false) :
    p ∈ conflictingCells csp b := by
  unfold conflictingCells
  rw [List.mem_filter]
  refine ⟨mem_rowMajorCells.mpr ⟨hp1, hp2⟩, ?_⟩
  rw [hib]
  exact decide_eq_true (⟨hopen, hfail⟩ :
    getCell ((some ib : Option Board).getD []) p.1 p.2 = -1 ∧ checkVal csp b p.1 p.2 = false)

/-- **C3 (amended)**: for an engine holding an initial board whose
pre-filled clues are mutually consistent, and a fully assigned board that
agrees with the initial board on its pre-filled cells, whenever
`checkAll(board)` returns false there is at least one cell that is open in
the initial board and fails the single-cell check, so the
`conflictingCells` list built by `swapMinConflicts` is non-empty and its
random selection cannot fault.  (Without the clue-consistency hypothesis
the claim is false — see the counterexample.) -/
theorem conflictingCells_nonempty (csp : SudokuCSP) (b ib : Board)
    (hib : csp.initialBoard = some ib)
    (hm : 0 < csp.m) (hk : 0 < csp.k)
    (hmn : csp.n % csp.m = 0) (hkn : csp.n % csp.k = 0)
    (hlen : b.length = csp.n) (hrows : ∀ row ∈ b, row.length = csp.n)
    (hagree : ∀ i ∈ List.range csp.n, ∀ j ∈ List.range csp.n, getCell ib i j ≠ -1 →
      getCell b i j = getCell ib i j)
    (hclues : ∀ i ∈ List.range csp.n, ∀ j ∈ List.range csp.n, getCell ib i j ≠ -1 →
      ∀ c ∈ csp.getNeighbours i j, getCell ib c.1 c.2 ≠ getCell ib i j)
    (hfail : checkAllVal csp b = false) :
    conflictingCells csp b ≠ [] := by
  have hmd : csp.m ∣ csp.n := Nat.dvd_of_mod_eq_zero hmn
  have hkd : csp.k ∣ csp.n := Nat.dvd_of_mod_eq_zero hkn
  have hspec : ¬ specNoDuplicates csp b := by
    intro hs
    rw [← checkAllVal_iff_spec hm hk hmn hkn hlen hrows] at hs
    rw [hfail] at hs
    exact absurd hs (by decide)
  have key : ∃ p q : Nat × Nat, p.1 < csp.n ∧ p.2 < csp.n ∧ q.1 < csp.n ∧ q.2 < csp.n ∧
      q ∈ csp.getNeighbours p.1 p.2 ∧ getCell b q.1 q.2 = getCell b p.1 p.2 := by
    unfold specNoDuplicates at hspec
    rcases not_and_or.mp hspec with h1 | h23
    · push_neg at h1
      obtain ⟨i, j1, j2, hi, hj1, hj2, hne, heq⟩ := h1
      refine ⟨(i, j1), (i, j2), hi, hj1, hi, hj2, ?_, heq.symm⟩
      rw [mem_getNeighbours hm hk hmn hkn hi hj1]
      exact ⟨fun he => hne (congrArg Prod.snd he).symm, hi, hj2, Or.inl rfl⟩
    · rcases not_and_or.mp h23 with h2 | h3
      · push_neg at h2
        obtain ⟨j, i1, i2, hj, hi1, hi2, hne, heq⟩ := h2
        refine ⟨(i1, j), (i2, j), hi1, hj, hi2, hj, ?_, heq.symm⟩
        rw [mem_getNeighbours hm hk hmn hkn hi1 hj]
        exact ⟨fun he => hne (congrArg Prod.fst he).symm, hi2, hj, Or.inr (Or.inl rfl)⟩
      · push_neg at h3
        obtain ⟨t1, t2, ht1, ht2, r1, c1, r2, c2, hr1, hc1, hr2, hc2, hne, heq⟩ := h3
        have hrow1 : csp.m * t1 + r1 < csp.n := by
          have h4 : csp.m * (t1 + 1) ≤ csp.m * (csp.n / csp.m) :=
            Nat.mul_le_mul_left _ (by omega)
          have h5 : csp.m * (csp.n / csp.m) = csp.n := Nat.mul_div_cancel' hmd
          have h6 : csp.m * (t1 + 1) = csp.m * t1 + csp.m := by ring
          omega
        have hrow2 : csp.m * t1 + r2 < csp.n := by
          have h4 : csp.m * (t1 + 1) ≤ csp.m * (csp.n / csp.m) :=
            Nat.mul_le_mul_left _ (by omega)
          have h5 : csp.m * (csp.n / csp.m) = csp.n := Nat.mul_div_cancel' hmd
          have h6 : csp.m * (t1 + 1) = csp.m * t1 + csp.m := by ring
          omega
        have hcol1 : csp.k * t2 + c1 < csp.n := by
          have h4 : csp.k * (t2 + 1) ≤ csp.k * (csp.n / csp.k) :=
            Nat.mul_le_mul_left _ (by omega)
          have h5 : csp.k * (csp.n / csp.k) = csp.n := Nat.mul_div_cancel' hkd
          have h6 : csp.k * (t2 + 1) = csp.k * t2 + csp.k := by ring
          omega
        have hcol2 : csp.k * t2 + c2 < csp.n := by
          have h4 : csp.k * (t2 + 1) ≤ csp.k * (csp.n / csp.k) :=
            Nat.mul_le_mul_left _ (by omega)
          have h5 : csp.k * (csp.n / csp.k) = csp.n := Nat.mul_div_cancel' hkd
          have h6 : csp.k * (t2 + 1) = csp.k * t2 + csp.k := by ring
          omega
        refine ⟨(csp.m * t1 + r1, csp.k * t2 + c1), (csp.m * t1 + r2, csp.k * t2 + c2),
          hrow1, hcol1, hrow2, hcol2, ?_, heq.symm⟩
        rw [mem_getNeighbours hm hk hmn hkn hrow1 hcol1]
        have hdiv1 : (csp.m * t1 + r1) / csp.m = t1 := by
          rw [Nat.mul_add_div hm, Nat.div_eq_of_lt hr1]
          omega
        have hdiv2 : (csp.m * t1 + r2) / csp.m = t1 := by
          rw [Nat.mul_add_div hm, Nat.div_eq_of_lt hr2]
          omega
        have hdiv3 : (csp.k * t2 + c1) / csp.k = t2 := by
          rw [Nat.mul_add_div hk, Nat.div_eq_of_lt hc1]
          omega
        have hdiv4 : (csp.k * t2 + c2) / csp.k = t2 := by
          rw [Nat.mul_add_div hk, Nat.div_eq_of_lt hc2]
          omega
        refine ⟨?_, hrow2, hcol2, Or.inr (Or.inr ⟨by rw [hdiv2, hdiv1], by rw [hdiv4, hdiv3]⟩)⟩
        intro he
        have e1 : csp.m * t1 + r2 = csp.m * t1 + r1 := congrArg Prod.fst he
        have e2 : csp.k * t2 + c2 = csp.k * t2 + c1 := congrArg Prod.snd he
        exact hne (by
          have : r1 = r2 := by omega
          have : c1 = c2 := by omega
          exact Prod.ext (by omega) (by omega))
  obtain ⟨p, q, hp1, hp2, hq1, hq2, hmemq, heq⟩ := key
  by_cases hpopen : getCell ib p.1 p.2 = -1
  · refine List.ne_nil_of_mem (mem_conflictingCells hib hp1 hp2 hpopen ?_)
    rw [checkVal_false_iff]
    exact ⟨q, hmemq, heq⟩
  · by_cases hqopen : getCell ib q.1 q.2 = -1
    · have hmemp : (p.1, p.2) ∈ csp.getNeighbours q.1 q.2 :=
        getNeighbours_symm_mem hm hk hmn hkn hp1 hp2 (by
          have : q = (q.1, q.2) := rfl
          rw [← this]
          exact hmemq)
      refine List.ne_nil_of_mem (mem_conflictingCells hib hq1 hq2 hqopen ?_)
      rw [checkVal_false_iff]
      exact ⟨(p.1, p.2), hmemp, heq.symm⟩
    · exfalso
      have hbp : getCell b p.1 p.2 = getCell ib p.1 p.2 :=
        hagree _ (List.mem_range.mpr hp1) _ (List.mem_range.mpr hp2) hpopen
      have hbq : getCell b q.1 q.2 = getCell ib q.1 q.2 :=
        hagree _ (List.mem_range.mpr hq1) _ (List.mem_range.mpr hq2) hqopen
      exact hclues p.1 (List.mem_range.mpr hp1) p.2 (List.mem_range.mpr hp2) hpopen
        q hmemq (by rw [← hbq, ← hbp, heq])

/-- **C3 (counterexample)**: an engine whose initial board is fully
pre-filled and self-contradictory (n=2, m=1, k=2, both rows holding
duplicated values) makes `checkAll` false on that same fully assigned
board, yet no cell is open in the initial board, so the `conflictingCells`
list of `swapMinConflicts` is empty and `random.choice` on it faults: the
claim as stated is false. -/
theorem conflictingCells_empty_counterexample :
    checkAllVal (SudokuCSP.init 2 1 2 (some [[1, 1], [2, 2]])) [[1, 1], [2, 2]] = false ∧
    conflictingCells (SudokuCSP.init 2 1 2 (some [[1, 1], [2, 2]])) [[1, 1], [2, 2]] = [] := by
  exact ⟨by decide, by decide⟩

theorem conflictingCells_nonempty_witness :
    ((SudokuCSP.init 2 1 2 (some [[1, -1], [-1, -1]])).initialBoard =
        some [[1, -1], [-1, -1]] ∧
      checkAllVal (SudokuCSP.init 2 1 2 (some [[1, -1], [-1, -1]])) [[1, 1], [2, 2]] =
        false) ∧
    conflictingCells (SudokuCSP.init 2 1 2 (some [[1, -1], [-1, -1]])) [[1, 1], [2, 2]] ≠ [] :=
  ⟨⟨by decide, by decide⟩,
    conflictingCells_nonempty (SudokuCSP.init 2 1 2 (some [[1, -1], [-1, -1]]))
      [[1, 1], [2, 2]] [[1, -1], [-1, -1]] (by decide) (by decide) (by decide) (by decide)
      (by decide) (by decide) (by decide) (by decide) (by decide) (by decide)⟩
